import Mathlib

/-!
Shallow embedding of `src/half-light.ts` (the half-light cross-root style
propagation script) and verification of its specification claims.

Conventions of the embedding:
* JavaScript strings are Lean `String`s; character-level work uses `List Char`.
* `CSSStyleSheet` objects created by `new CSSStyleSheet()` and mutated through
  `insertRule` are modelled by an explicit heap (`Heap`) of rule-text lists,
  addressed by numeric ids, because `R.clone` copies such host objects by
  reference and the aliasing is observable (claim C6).
* `insertRule(text)` uses the default index 0, i.e. it prepends.
* Platform black boxes (CSS selector matching, the `matches` call on a
  stylesheet's owner node) are modelled as data carried by the input:
  an element records the list of selectors it matches, a stylesheet records
  the boolean outcome of `matches("head > :not([no-half-light])")`.
-/

namespace HalfLight

/-! ## Association-list helpers

Maps in the source are plain JavaScript objects with string keys (insertion
order is iteration order) and `WeakMap`s; both are modelled as association
lists with distinct keys.  `mapVals` rewrites each value in place, keeping the
keys. -/

def mapVals {α β : Type _} (f : α × β → β) (l : List (α × β)) : List (α × β) :=
  l.map (fun p => (p.1, f p))

theorem lookup_mapVals {α β : Type _} [BEq α] [LawfulBEq α] (f : α × β → β)
    (l : List (α × β)) (k : α) :
    (mapVals f l).lookup k = (l.lookup k).map (fun v => f (k, v)) := by
  induction l with
  | nil => rfl
  | cons p t ih =>
    rcases p with ⟨a, b⟩
    by_cases hak : k = a
    · subst hak
      simp [mapVals, List.lookup]
    · simp only [mapVals, List.map_cons, List.lookup]
      rw [show (k == a) = false from beq_eq_false_iff_ne.mpr hak]
      exact ih

theorem mapVals_fst {α β : Type _} (f : α × β → β) (l : List (α × β)) :
    (mapVals f l).map Prod.fst = l.map Prod.fst := by
  simp [mapVals, Function.comp]

theorem mapVals_mapVals {α β : Type _} (f g : α × β → β) (l : List (α × β)) :
    mapVals f (mapVals g l) = mapVals (fun p => f (p.1, g p)) l := by
  simp [mapVals, Function.comp]

theorem mapVals_congr {α β : Type _} {f g : α × β → β} {l : List (α × β)}
    (h : ∀ p ∈ l, f p = g p) : mapVals f l = mapVals g l := by
  simp only [mapVals]
  exact List.map_congr_left (fun p hp => by rw [h p hp])

theorem lookup_eq_none_iff {α β : Type _} [BEq α] [LawfulBEq α]
    (l : List (α × β)) (k : α) :
    l.lookup k = none ↔ ∀ p ∈ l, p.1 ≠ k := by
  induction l with
  | nil => simp
  | cons p t ih =>
    rcases p with ⟨a, b⟩
    by_cases hak : k = a
    · subst hak
      simp [List.lookup]
    · simp only [List.lookup]
      rw [show (k == a) = false from beq_eq_false_iff_ne.mpr hak]
      rw [ih]
      constructor
      · rintro h q hq
        rcases List.mem_cons.mp hq with h1 | h1
        · rw [h1]
          exact fun hc => hak hc.symm
        · exact h q h1
      · intro h q hq
        exact h q (List.mem_cons_of_mem _ hq)

theorem lookup_eq_some_mem {α β : Type _} [BEq α] [LawfulBEq α]
    {l : List (α × β)} {k : α} {v : β} (h : l.lookup k = some v) : (k, v) ∈ l := by
  induction l with
  | nil => simp [List.lookup] at h
  | cons p t ih =>
    rcases p with ⟨a, b⟩
    by_cases hak : k = a
    · subst hak
      simp [List.lookup] at h
      rw [h]
      exact List.mem_cons_self _ _
    · simp only [List.lookup] at h
      rw [show (k == a) = false from beq_eq_false_iff_ne.mpr hak] at h
      exact List.mem_cons_of_mem _ (ih h)

theorem lookup_append_of_none {α β : Type _} [BEq α] [LawfulBEq α]
    {l : List (α × β)} (l' : List (α × β)) {k : α} (h : l.lookup k = none) :
    (l ++ l').lookup k = l'.lookup k := by
  induction l with
  | nil => rfl
  | cons p t ih =>
    rcases p with ⟨a, b⟩
    simp only [List.lookup, List.cons_append] at *
    cases hk : (k == a) with
    | true =>
      rw [hk] at h
      simp at h
    | false =>
      rw [hk] at h
      exact ih h

theorem lookup_of_mem_keysNodup {α β : Type _} [BEq α] [LawfulBEq α]
    {l : List (α × β)} (hnd : (l.map Prod.fst).Nodup) {k : α} {v : β}
    (hm : (k, v) ∈ l) : l.lookup k = some v := by
  induction l with
  | nil => simp at hm
  | cons p t ih =>
    rcases p with ⟨a, b⟩
    simp only [List.map_cons, List.nodup_cons] at hnd
    rcases List.mem_cons.mp hm with h1 | h1
    · have ha : a = k := (congrArg Prod.fst h1.symm : a = k)
      have hb : b = v := (congrArg Prod.snd h1.symm : b = v)
      subst ha
      subst hb
      simp [List.lookup]
    · have hak : k ≠ a := by
        intro hak
        subst hak
        exact hnd.1 (List.mem_map.mpr ⟨(k, v), h1, rfl⟩)
      simp only [List.lookup]
      rw [show (k == a) = false from beq_eq_false_iff_ne.mpr hak]
      exact ih hnd.2 h1

theorem snd_eq_of_keysNodup {α β : Type _} {l : List (α × β)}
    (hnd : (l.map Prod.fst).Nodup) {k : α} {v : β} (hm : (k, v) ∈ l)
    {p : α × β} (hp : p ∈ l) (hk : p.1 = k) : p.2 = v := by
  have := List.inj_on_of_nodup_map hnd hp hm (by simp [hk])
  rw [this]

/-! ## Marker Parser (`parseMediaQuery`, source lines 46-52)

The source matches the regular expression `(?:--crossroot\({0,1})([^\)]*)`
against the condition string.  `matchTail` returns the remainder of the string
after the leftmost occurrence of the literal `--crossroot` (the whole pattern
matches exactly when that literal occurs somewhere); `captureGroup` models the
capture `([^\)]*)` preceded by the optional `\({0,1}`: it skips one opening
parenthesis when present and then takes characters up to the first `)` or the
end of the string. -/

def markerChars : List Char := "--crossroot".toList

/-- `stripLead pat cs` returns `some rest` when `cs = pat ++ rest`. -/
def stripLead : List Char → List Char → Option (List Char)
  | [], cs => some cs
  | _ :: _, [] => none
  | a :: as, b :: bs => if a = b then stripLead as bs else none

/-- Remainder of the string after the leftmost occurrence of `--crossroot`,
`none` when the marker does not occur (the regex fails to match). -/
def matchTail : List Char → Option (List Char)
  | [] => none
  | c :: cs =>
    match stripLead markerChars (c :: cs) with
    | some rest => some rest
    | none => matchTail cs

/-- The capture group `([^\)]*)` after the optional `\({0,1}`. -/
def captureGroup : List Char → List Char
  | '(' :: rest => rest.takeWhile (fun c => c ≠ ')')
  | cs => cs.takeWhile (fun c => c ≠ ')')

/-- Whitespace in the sense of JavaScript's `String.prototype.trim`. -/
def isJsWhitespace (c : Char) : Bool :=
  c = ' ' || c = '\t' || c = '\n' || c = '\r' || c = '\x0b' || c = '\x0c'

structure MediaQueryResult where
  isCrossRoot : Bool
  selector : String
deriving DecidableEq, Repr

/-- `parseMediaQuery` (source lines 46-52).  `match.length === 2` is always
true when the regex matches (one capture group), and `match[1].trim()` is
truthy exactly when the capture contains a non-whitespace character; the
selector is the *untrimmed* capture in that case. -/
def parseMediaQuery (condition : String) : MediaQueryResult :=
  let m := matchTail condition.toList
  { isCrossRoot := condition == "--crossroot" || m.isSome,
    selector :=
      match m with
      | some rest =>
        let g := captureGroup rest
        if g.all isJsWhitespace then "*" else String.mk g
      | none => "*" }

/-! ## Heap of accumulator stylesheets -/

/-- Store of `CSSStyleSheet` objects reachable from style maps; each sheet is
its list of inserted rule texts, most recently inserted first. -/
structure Heap where
  sheets : List (List String)
deriving DecidableEq, Repr

def Heap.empty : Heap := ⟨[]⟩

def Heap.size (h : Heap) : Nat := h.sheets.length

/-- Dereference a sheet id (out-of-range reads, which never occur for
well-formed maps, give the empty sheet). -/
def Heap.read (h : Heap) (i : Nat) : List String := (h.sheets[i]?).getD []

def Heap.write (h : Heap) (i : Nat) (v : List String) : Heap := ⟨h.sheets.set i v⟩

/-- `new CSSStyleSheet()`: allocate a fresh empty sheet. -/
def Heap.alloc (h : Heap) : Heap × Nat := (⟨h.sheets ++ [[]]⟩, h.sheets.length)

/-- `sheet.insertRule(text)` with the default index 0: prepend the rule text. -/
def Heap.insertRuleFront (h : Heap) (i : Nat) (t : String) : Heap :=
  h.write i (t :: h.read i)

/-- The Cross-Root Style Map: selector keys in insertion order, each bound to
the heap id of its accumulator stylesheet. -/
abbrev CrossRootStyles := List (String × Nat)

def createCrossRootStyles : CrossRootStyles := []

/-! ## CSSOM rule model -/

/-- A rule of a scanned stylesheet.  `style` covers every non-grouping rule
(only its serialized `cssText` is ever read); `group` is a conditional
grouping rule carrying its runtime constructor name (`rule.constructor.name`),
its `conditionText`, its nested rule list and its own serialized text. -/
inductive CSSRule where
  | style (cssText : String)
  | group (ctorName : String) (conditionText : String)
      (cssRules : List CSSRule) (cssText : String)

/-- `rule.cssText`. -/
def CSSRule.cssText : CSSRule → String
  | .style t => t
  | .group _ _ _ t => t

/-- `rule.constructor.name`; non-grouping rules report their own class, which
is never `"CSSMediaRule"`. -/
def CSSRule.kindName : CSSRule → String
  | .style _ => "CSSStyleRule"
  | .group n _ _ _ => n

/-- `(rule as CSSMediaRule).conditionText || ""`: `undefined` on a
non-grouping rule coerces to the empty string. -/
def CSSRule.conditionTextOrEmpty : CSSRule → String
  | .style _ => ""
  | .group _ c _ _ => c

/-- `(rule as CSSMediaRule).cssRules` (empty for non-grouping rules). -/
def CSSRule.childRules : CSSRule → List CSSRule
  | .style _ => []
  | .group _ _ rs _ => rs

/-- A document stylesheet as seen by the extractor: `sheet.media.mediaText`,
the outcome of `(sheet.ownerNode as Element).matches("head > :not([no-half-light])")`,
and `sheet.cssRules`. -/
structure StyleSheet where
  mediaText : String
  ownerNodeEligible : Bool
  cssRules : List CSSRule

/-! ## Rule Extractor (source lines 8-19, 34-39, 54-74) -/

/-- `addStyleRule` (source lines 8-19).  `R.clone` produces a fresh outer map
object whose sheet values are the *same* `CSSStyleSheet` objects (Ramda deep
clone copies host objects by reference), so the heap id is shared; the rule is
then inserted, in place, at the front of the selector's accumulator sheet,
which is freshly allocated when the selector is absent. -/
def addStyleRule (h : Heap) (crossRootStyles : CrossRootStyles) (selector : String)
    (rule : CSSRule) : Heap × CrossRootStyles :=
  match crossRootStyles.lookup selector with
  | some i => (h.insertRuleFront i rule.cssText, crossRootStyles)
  | none =>
    let p := h.alloc
    (p.1.insertRuleFront p.2 rule.cssText, crossRootStyles ++ [(selector, p.2)])

/-- `processStyleSheet` (source lines 34-39): fold `addStyleRule` over a rule
list. -/
def processStyleSheet (h : Heap) (rules : List CSSRule) (selector : String)
    (crossRootStyles : CrossRootStyles) : Heap × CrossRootStyles :=
  rules.foldl (fun acc rule => addStyleRule acc.1 acc.2 selector rule)
    (h, crossRootStyles)

/-- One iteration of the `R.forEach` loop over a sheet's top-level rules
(source lines 63-70): only rules whose constructor name is `"CSSMediaRule"`
and whose `conditionText` parses as cross-root contribute. -/
def topLevelRuleStep (acc : Heap × CrossRootStyles) (rule : CSSRule) :
    Heap × CrossRootStyles :=
  let r := parseMediaQuery rule.conditionTextOrEmpty
  if rule.kindName == "CSSMediaRule" && r.isCrossRoot then
    processStyleSheet acc.1 rule.childRules r.selector acc.2
  else acc

/-- The body of the `R.reduce` over stylesheets (source lines 55-72). -/
def sheetStep (acc : Heap × CrossRootStyles) (sheet : StyleSheet) :
    Heap × CrossRootStyles :=
  if !sheet.ownerNodeEligible then acc
  else
    let r := parseMediaQuery sheet.mediaText
    let acc1 :=
      if r.isCrossRoot then processStyleSheet acc.1 sheet.cssRules r.selector acc.2
      else acc
    sheet.cssRules.foldl topLevelRuleStep acc1

/-- `refreshCrossRootStyles` (source lines 54-74), starting from a fresh map
and an empty heap. -/
def refreshCrossRootStyles (styleSheets : List StyleSheet) : Heap × CrossRootStyles :=
  styleSheets.foldl sheetStep (Heap.empty, createCrossRootStyles)

/-- Contents view of a style map: each selector paired with the rule texts of
its accumulator sheet as they stand in the given heap. -/
def styleMapView (h : Heap) (m : CrossRootStyles) : List (String × List String) :=
  m.map (fun p => (p.1, h.read p.2))

/-- `convertToCSSStyleSheets` (source lines 76-83): one fresh stylesheet per
selector, in map iteration order, holding the single rule
`"@layer --crossroot {" + cssRules[0].cssText + "}"`; reading `cssRules[0]`
of an empty accumulator would throw, modelled by `none` for the whole pass. -/
def convertToCSSStyleSheets (h : Heap) : CrossRootStyles → Option (List (String × List String))
  | [] => some []
  | p :: rest =>
    match (h.read p.2).head? with
    | none => none
    | some t =>
      (convertToCSSStyleSheets h rest).map
        (fun l => (p.1, ["@layer --crossroot \x7b" ++ t ++ "\x7d"]) :: l)

/-! ## Specification-side formulations used to state claims -/

/-- The condition string contains the literal marker `--crossroot`. -/
def ContainsMarker (c : String) : Prop :=
  ∃ pre post : List Char, c.toList = pre ++ markerChars ++ post

/-- Claim C3's (incorrect) cross-root criterion: the string is exactly the
marker token, or contains the marker immediately followed by an opening
parenthesis (a parenthesized argument list). -/
def CrossRootPerClaim (c : String) : Prop :=
  c = "--crossroot" ∨ ∃ pre rest : List Char, c.toList = pre ++ markerChars ++ ('(' :: rest)

/-- Pure persistent insertion of one rule text at the front of a selector's
bucket: the reference update the heap-based extractor refines. -/
def insertText (acc : List (String × List String)) (sel t : String) :
    List (String × List String) :=
  match acc.lookup sel with
  | some _ => acc.map (fun q => if q.1 = sel then (q.1, t :: q.2) else q)
  | none => acc ++ [(sel, [t])]

def buildStylesFrom (acc : List (String × List String)) (ps : List (String × String)) :
    List (String × List String) :=
  ps.foldl (fun a p => insertText a p.1 p.2) acc

def buildStyles (ps : List (String × String)) : List (String × List String) :=
  buildStylesFrom [] ps

/-- The (selector, rule text) pairs one top-level rule contributes: nonempty
only for a direct-child grouping rule whose constructor name is
`"CSSMediaRule"` and whose own condition text parses as cross-root. -/
def rulePairs (rule : CSSRule) : List (String × String) :=
  let r2 := parseMediaQuery rule.conditionTextOrEmpty
  if rule.kindName == "CSSMediaRule" && r2.isCrossRoot then
    rule.childRules.map (fun c => (r2.selector, c.cssText))
  else []

/-- The (selector, rule text) pairs one stylesheet contributes, in extraction
order: its own top-level rules when the sheet-level condition is cross-root,
then the child rules of each direct-child `CSSMediaRule` whose condition is
cross-root. -/
def sheetExtractedPairs (sheet : StyleSheet) : List (String × String) :=
  if !sheet.ownerNodeEligible then []
  else
    (let r := parseMediaQuery sheet.mediaText
     if r.isCrossRoot then sheet.cssRules.map (fun rule => (r.selector, rule.cssText))
     else [])
    ++ sheet.cssRules.flatMap rulePairs

def extractedPairs (sheets : List StyleSheet) : List (String × String) :=
  sheets.flatMap sheetExtractedPairs

/-- Well-formedness of a style map relative to a heap: selector keys are
distinct, sheet ids are distinct, and every id is allocated. -/
def WFS (h : Heap) (m : CrossRootStyles) : Prop :=
  (m.map Prod.fst).Nodup ∧ (m.map Prod.snd).Nodup ∧ ∀ p ∈ m, p.2 < h.size

/-! ## Dark-Root Detector (`isInDarkRoot`, source lines 21-32)

A node of the DOM/shadow ancestry: either an element (with its `darkened`
attribute, its `darkened` expando property, whether it is
`document.documentElement`, and its `parentElement`), or a shadow root with
its host.  Shadow roots are document fragments, so they have no
`parentElement`; that platform invariant is built into the datatype.  The
type is inductive, so every ancestry is finite and acyclic and the recursion
below terminates by construction. -/
inductive DomNode where
  | element (darkAttr : Bool) (darkProp : Bool) (isDocumentElement : Bool)
      (parentElement : Option DomNode)
  | shadow (host : DomNode)

/-- `host.hasAttribute('darkened')`. -/
def DomNode.hasDarkAttr : DomNode → Bool
  | .element a _ _ _ => a
  | .shadow _ => false

/-- `(host as any).darkened` coerced to a boolean. -/
def DomNode.hasDarkProp : DomNode → Bool
  | .element _ p _ _ => p
  | .shadow _ => false

/-- `isInDarkRoot` (source lines 21-32).  The source checks `parentElement`
first, but a shadow root never has one; the final line returns
`element !== document.documentElement && !(element instanceof ShadowRoot)`,
whose second conjunct is always true on the branch that reaches it. -/
def isInDarkRoot : DomNode → Bool
  | .element _ _ d none => !d
  | .element _ _ _ (some parent) => isInDarkRoot parent
  | .shadow host =>
    if host.hasDarkAttr || host.hasDarkProp then true else isInDarkRoot host

/-! ## Page state and Apply/Reset operations (source lines 85-111)

Shadow hosts are identified by numeric ids.  A host records the `DomNode`
describing its position (used by the Dark-Root Detector on its shadow root),
the selectors it `matches` (CSS matching is a platform black box, so the
matched-selector set is data), whether `element.shadowRoot` is a non-null
open shadow root, and the shadow root's `adoptedStyleSheets` (each adopted
sheet given by its rule texts).  Operations that dereference
`element.shadowRoot!` return `none` when the dereference would throw. -/

structure HostState where
  pos : DomNode
  matchedBy : List String
  openRoot : Bool
  adopted : List (List String)

structure PageState where
  hosts : List (Nat × HostState)
  stylableElements : List Nat
  baselines : List (Nat × List (List String))
  pending : List Nat

/-- Update the adopted-stylesheet list of the host keyed `e`. -/
def updAdopted (hosts : List (Nat × HostState)) (e : Nat) (v : List (List String)) :
    List (Nat × HostState) :=
  mapVals (fun p => if p.1 = e then { p.2 with adopted := v } else p.2) hosts

/-- `clearShadowRootStyles` (source lines 85-87):
`element.shadowRoot!.adoptedStyleSheets = initialStyleSheets`. -/
def clearShadowRootStyles (s : PageState) (e : Nat)
    (initialStyleSheets : List (List String)) : Option PageState :=
  match s.hosts.lookup e with
  | none => none
  | some hst =>
    if hst.openRoot then some { s with hosts := updAdopted s.hosts e initialStyleSheets }
    else none

/-- `applyCrossRootStyles` (source lines 89-98): for each selector key, if the
element matches it, append that selector's compiled sheet to
`element.shadowRoot!.adoptedStyleSheets`. -/
def applyCrossRootStyles (s : PageState) (e : Nat)
    (crossRootStyles : List (String × List String)) : Option PageState :=
  crossRootStyles.foldlM (fun st p =>
    match st.hosts.lookup e with
    | none => none
    | some hst =>
      if hst.matchedBy.contains p.1 then
        if hst.openRoot then
          some { st with hosts := updAdopted st.hosts e (hst.adopted ++ [p.2]) }
        else none
      else some st) s

/-- The body of the `R.forEach` in `initializeStyles` (source lines 107-110)
for one tracked element: reset to the recorded baseline
(`initialShadowRootStyles.get(element) || []`), then apply. -/
def syncHostStep (styleSheetMap : List (String × List String)) (st : PageState)
    (e : Nat) : Option PageState :=
  match clearShadowRootStyles st e ((st.baselines.lookup e).getD []) with
  | none => none
  | some st1 => applyCrossRootStyles st1 e styleSheetMap

/-- `initializeStyles` (source lines 100-111): extract, compile, then for every
tracked element reset to its recorded baseline and apply. -/
def initializeStyles (styleSheets : List StyleSheet) (s : PageState) :
    Option PageState :=
  let q := refreshCrossRootStyles styleSheets
  match convertToCSSStyleSheets q.1 q.2 with
  | none => none
  | some styleSheetMap => s.stylableElements.foldlM (syncHostStep styleSheetMap) s

/-- `N` consecutive sync passes over unchanged source stylesheets. -/
def syncN (styleSheets : List StyleSheet) : Nat → PageState → Option PageState
  | 0, s => some s
  | n + 1, s => (initializeStyles styleSheets s).bind (syncN styleSheets n)

/-! ## Shadow Attachment Interceptor (`wrapAttachShadow`, source lines 135-162)
and the `main` wiring (source lines 164-182) -/

/-- `Set.prototype.add`. -/
def addStylable (l : List Nat) (e : Nat) : List Nat :=
  if e ∈ l then l else l ++ [e]

/-- `WeakMap.prototype.set` (upsert). -/
def upsertBaseline (l : List (Nat × List (List String))) (e : Nat)
    (v : List (List String)) : List (Nat × List (List String)) :=
  match l.lookup e with
  | some _ => mapVals (fun p => if p.1 = e then v else p.2) l
  | none => l ++ [(e, v)]

/-- The deferred (next-animation-frame) body of the wrapped `attachShadow`
(source lines 147-159), for an open-mode attachment on element `e`: consume
the scheduled callback; stop if the new shadow root is inside a darkened
subtree; otherwise register the host (when live updates are enabled), record
the root's current adopted list as its baseline, and apply the style map the
interceptor closure captured. -/
def attachShadowCallback (liveUpdateEnabled : Bool)
    (crossRootStyles : List (String × List String)) (e : Nat) (s : PageState) :
    Option PageState :=
  match s.hosts.lookup e with
  | none => none
  | some hst =>
    let s0 := { s with pending := s.pending.erase e }
    if isInDarkRoot (DomNode.shadow hst.pos) then some s0
    else
      let s1 :=
        if liveUpdateEnabled then { s0 with stylableElements := addStylable s0.stylableElements e }
        else s0
      let s2 := { s1 with baselines := upsertBaseline s1.baselines e hst.adopted }
      applyCrossRootStyles s2 e crossRootStyles

/-- The style map `main` hands to `wrapAttachShadow` (source lines 165, 181):
`createCrossRootStyles()` produces an empty map, the variable is never
reassigned, and no code path inserts a rule into that object
(`initializeStyles` builds fresh local maps), so the interceptor closure sees
the empty map for the lifetime of the page.  Its contents view is `[]`. -/
def mainInterceptorStyles : List (String × List String) :=
  styleMapView Heap.empty createCrossRootStyles

/-- The attach callback as instantiated by `main` (source line 181):
`liveUpdateEnabled` is `true` and the captured style map is
`mainInterceptorStyles`. -/
def mainAttachShadowCallback (e : Nat) (s : PageState) : Option PageState :=
  attachShadowCallback true mainInterceptorStyles e s

/-- The snapshot `main` takes at script-evaluation time
(`const styleSheets = [...document.styleSheets]`, source line 169): every
invocation of `initCallback` — the initial pass and every mutation-triggered
pass — re-reads this same array. -/
def mainInitCallback (styleSheetsSnapshot : List StyleSheet) (s : PageState) :
    Option PageState :=
  initializeStyles styleSheetsSnapshot s

/-- The bootstrapping `<script>` element: whether it carries the
`disable-live-half-light` attribute. -/
structure BootScript where
  hasDisableAttr : Bool

/-- `handleDOMContentLoaded` (source lines 124-133), with the nullability of
the `script` argument made explicit: the source calls
`script.hasAttribute('disable-live-half-light')`, which throws a `TypeError`
(modelled by `none`) when `script` is null.  On success it returns the new
observer-connected flag and the new Stylable-Elements Set. -/
def handleDOMContentLoaded (script : Option BootScript) (observerConnected : Bool)
    (stylableElements : List Nat) : Option (Bool × List Nat) :=
  match script with
  | none => none
  | some sc =>
    if sc.hasDisableAttr then some (false, []) else some (observerConnected, stylableElements)

/-- `document.currentScript` as read by `main` inside its
`requestAnimationFrame` callback (source line 175): per the HTML standard,
`currentScript` is null whenever a callback — rather than the script's own
evaluation — is running, so the value captured there is null regardless of
which script bootstrapped the page. -/
def currentScriptInFrameCallback : Option BootScript := none

/-- The DOM-content-ready handling as actually wired by `main` (source lines
175-178): `handleDOMContentLoaded` applied to the script reference captured
inside the frame callback. -/
def mainDOMContentLoadedResult (observerConnected : Bool) (stylableElements : List Nat) :
    Option (Bool × List Nat) :=
  handleDOMContentLoaded currentScriptInFrameCallback observerConnected stylableElements

/-! ## Operational model for the tracking invariant (claim C10)

The events that touch the Stylable-Elements Set or the hosts' shadow roots:
adding a fresh element to the page, an intercepted open-mode `attachShadow`
(which first runs the original `attachShadow`, so the element's open shadow
root exists — with an empty adopted list — before the callback is scheduled),
component code populating an existing open root's adopted list, the deferred
attach callback, a sync pass, and the opt-out path that clears the set.
Closed-mode attachments leave `element.shadowRoot` null and schedule nothing,
so they do not change this state. -/

/-- The synchronous part of an intercepted open-mode `attachShadow` on `e`. -/
def doAttachOpen (s : PageState) (e : Nat) : PageState :=
  { s with
    hosts := mapVals (fun p =>
      if p.1 = e then { p.2 with openRoot := true, adopted := [] } else p.2) s.hosts,
    pending := s.pending ++ [e] }

/-- Component code assigning `shadowRoot.adoptedStyleSheets` of its own open
root. -/
def envSetAdopted (s : PageState) (e : Nat) (v : List (List String)) : PageState :=
  { s with hosts := updAdopted s.hosts e v }

inductive Step : PageState → PageState → Prop where
  | newElement (s : PageState) (e : Nat) (pos : DomNode) (sels : List String)
      (hfresh : s.hosts.lookup e = none) :
      Step s { s with hosts := s.hosts ++ [(e, ⟨pos, sels, false, []⟩)] }
  | attachOpen (s : PageState) (e : Nat) (hst : HostState)
      (hl : s.hosts.lookup e = some hst) (hr : hst.openRoot = false) :
      Step s (doAttachOpen s e)
  | envAdopt (s : PageState) (e : Nat) (v : List (List String)) (hst : HostState)
      (hl : s.hosts.lookup e = some hst) (hr : hst.openRoot = true) :
      Step s (envSetAdopted s e v)
  | runCallback (s s' : PageState) (e : Nat) (hp : e ∈ s.pending)
      (hcb : mainAttachShadowCallback e s = some s') :
      Step s s'
  | syncPass (s s' : PageState) (styleSheets : List StyleSheet)
      (hrun : initializeStyles styleSheets s = some s') :
      Step s s'
  | disableLive (s : PageState) :
      Step s { s with stylableElements := [] }

def initialPageState : PageState := ⟨[], [], [], []⟩

inductive Reachable : PageState → Prop where
  | init : Reachable initialPageState
  | step {s s' : PageState} : Reachable s → Step s s' → Reachable s'

/-- `element.shadowRoot` is a non-null open root, as a boolean on the model. -/
def hostHasOpenRoot (s : PageState) (e : Nat) : Bool :=
  match s.hosts.lookup e with
  | some hst => hst.openRoot
  | none => false

/-- Well-formedness used by the sync-pass theorems: tracked elements are
distinct, host keys are distinct, and every tracked element has a non-null
open shadow root. -/
def WFPage (s : PageState) : Prop :=
  s.stylableElements.Nodup ∧ (s.hosts.map Prod.fst).Nodup ∧
    ∀ e ∈ s.stylableElements, hostHasOpenRoot s e = true

/-- The compiled sheets a given host receives: one per selector key it
matches, in the map's iteration order. -/
def matchingSheets (hst : HostState) (compiled : List (String × List String)) :
    List (List String) :=
  compiled.filterMap (fun p => if hst.matchedBy.contains p.1 then some p.2 else none)

/-! ## Lemmas about the Marker Parser -/

theorem stripLead_eq_some_iff (pat : List Char) :
    ∀ (cs rest : List Char), stripLead pat cs = some rest ↔ cs = pat ++ rest := by
  induction pat with
  | nil =>
    intro cs rest
    simp [stripLead]
  | cons a as ih =>
    intro cs rest
    cases cs with
    | nil => simp [stripLead]
    | cons b bs =>
      simp only [stripLead]
      by_cases hab : a = b
      · subst hab
        simp [ih bs rest]
      · rw [if_neg hab]
        constructor
        · intro h
          cases h
        · intro h
          injection h with h1 h2
          exact absurd h1.symm hab

theorem matchTail_isSome_iff (cs : List Char) :
    (matchTail cs).isSome = true ↔ ∃ pre post : List Char, cs = pre ++ markerChars ++ post := by
  induction cs with
  | nil =>
    simp only [matchTail, Option.isSome_none, Bool.false_eq_true, false_iff]
    rintro ⟨pre, post, h⟩
    have hne : markerChars ≠ [] := by decide
    rcases List.append_eq_nil.mp h.symm with ⟨h1, -⟩
    rcases List.append_eq_nil.mp h1 with ⟨-, h2⟩
    exact hne h2
  | cons c t ih =>
    simp only [matchTail]
    cases hs : stripLead markerChars (c :: t) with
    | some rest =>
      simp only [Option.isSome_some, true_iff]
      exact ⟨[], rest, by simpa using (stripLead_eq_some_iff markerChars (c :: t) rest).mp hs⟩
    | none =>
      simp only []
      rw [ih]
      constructor
      · rintro ⟨pre, post, h⟩
        exact ⟨c :: pre, post, by simp [h]⟩
      · rintro ⟨pre, post, h⟩
        cases pre with
        | nil =>
          exfalso
          have : stripLead markerChars (c :: t) = some post :=
            (stripLead_eq_some_iff markerChars (c :: t) post).mpr (by simpa using h)
          rw [this] at hs
          cases hs
        | cons c' pre' =>
          have hct : c = c' ∧ t = pre' ++ markerChars ++ post := by
            simpa using h
          exact ⟨pre', post, hct.2⟩

theorem parseMediaQuery_isCrossRoot_iff (c : String) :
    (parseMediaQuery c).isCrossRoot = true ↔ ContainsMarker c := by
  simp only [parseMediaQuery, Bool.or_eq_true, beq_iff_eq]
  constructor
  · rintro (h | h)
    · subst h
      exact ⟨[], [], rfl⟩
    · exact (matchTail_isSome_iff c.toList).mp h
  · intro h
    exact Or.inr ((matchTail_isSome_iff c.toList).mpr h)

/-! ## Lemmas about the heap -/

theorem Heap.read_insertRuleFront_self (h : Heap) (i : Nat) (t : String)
    (hi : i < h.size) : (h.insertRuleFront i t).read i = t :: h.read i := by
  have hi' : i < h.sheets.length := hi
  simp only [Heap.insertRuleFront, Heap.write, Heap.read]
  rw [List.getElem?_set_eq_of_lt _ hi']
  rfl

theorem Heap.read_insertRuleFront_ne (h : Heap) (i j : Nat) (t : String)
    (hij : i ≠ j) : (h.insertRuleFront i t).read j = h.read j := by
  simp only [Heap.insertRuleFront, Heap.write, Heap.read]
  rw [List.getElem?_set_ne hij]

theorem Heap.read_alloc_fresh (h : Heap) : h.alloc.1.read h.size = [] := by
  simp only [Heap.alloc, Heap.read, Heap.size]
  rw [List.getElem?_concat_length]
  rfl

theorem Heap.read_alloc_lt (h : Heap) (j : Nat) (hj : j < h.size) :
    h.alloc.1.read j = h.read j := by
  simp only [Heap.alloc, Heap.read, Heap.size] at *
  rw [List.getElem?_append_left hj]

theorem Heap.alloc_size (h : Heap) : h.alloc.1.size = h.size + 1 := by
  simp [Heap.alloc, Heap.size]

theorem Heap.insertRuleFront_size (h : Heap) (i : Nat) (t : String) :
    (h.insertRuleFront i t).size = h.size := by
  simp [Heap.insertRuleFront, Heap.write, Heap.size]


/-! ## The extractor refines pure per-selector insertion -/

theorem lookup_mapEntries {α β γ : Type _} [BEq α] [LawfulBEq α] (f : α × β → γ)
    (l : List (α × β)) (k : α) :
    (l.map (fun p => (p.1, f p))).lookup k = (l.lookup k).map (fun v => f (k, v)) := by
  induction l with
  | nil => rfl
  | cons p t ih =>
    rcases p with ⟨a, b⟩
    by_cases hak : k = a
    · subst hak
      simp [List.lookup]
    · simp only [List.map_cons, List.lookup]
      rw [show (k == a) = false from beq_eq_false_iff_ne.mpr hak]
      exact ih

theorem styleMapView_lookup (h : Heap) (m : CrossRootStyles) (sel : String) :
    (styleMapView h m).lookup sel = (m.lookup sel).map h.read := by
  rw [styleMapView, lookup_mapEntries]

theorem buildStylesFrom_append (acc : List (String × List String))
    (ps qs : List (String × String)) :
    buildStylesFrom acc (ps ++ qs) = buildStylesFrom (buildStylesFrom acc ps) qs := by
  simp [buildStylesFrom, List.foldl_append]

theorem insertText_of_some (acc : List (String × List String)) (sel t : String)
    (v : List String) (h : acc.lookup sel = some v) :
    insertText acc sel t = acc.map (fun q => if q.1 = sel then (q.1, t :: q.2) else q) := by
  rw [insertText, h]

theorem insertText_of_none (acc : List (String × List String)) (sel t : String)
    (h : acc.lookup sel = none) :
    insertText acc sel t = acc ++ [(sel, [t])] := by
  rw [insertText, h]

theorem addStyleRule_spec (h : Heap) (m : CrossRootStyles) (sel : String) (rule : CSSRule)
    (hwf : WFS h m) :
    styleMapView (addStyleRule h m sel rule).1 (addStyleRule h m sel rule).2
      = insertText (styleMapView h m) sel rule.cssText
    ∧ WFS (addStyleRule h m sel rule).1 (addStyleRule h m sel rule).2 := by
  rcases hwf with ⟨hkey, hid, hlt⟩
  cases hl : m.lookup sel with
  | some i =>
    have ha : addStyleRule h m sel rule = (h.insertRuleFront i rule.cssText, m) := by
      rw [addStyleRule, hl]
    have hmem : (sel, i) ∈ m := lookup_eq_some_mem hl
    have hi : i < h.size := hlt _ hmem
    have hlv : (styleMapView h m).lookup sel = some (h.read i) := by
      rw [styleMapView_lookup, hl]
      rfl
    rw [ha]
    constructor
    · rw [insertText_of_some _ _ _ _ hlv]
      rw [styleMapView, styleMapView, List.map_map]
      refine List.map_congr_left ?_
      intro p hp
      by_cases hps : p.1 = sel
      · have hpi : p.2 = i := snd_eq_of_keysNodup hkey hmem hp hps
        simp [Function.comp, hps, hpi,
          Heap.read_insertRuleFront_self h i rule.cssText hi]
      · have hpi : p.2 ≠ i := by
          intro hcon
          have hpe : p = (sel, i) :=
            List.inj_on_of_nodup_map hid hp hmem (by simp [hcon])
          rw [hpe] at hps
          exact hps rfl
        simp [Function.comp, hps,
          Heap.read_insertRuleFront_ne h i p.2 rule.cssText (fun hc => hpi hc.symm)]
    · refine ⟨hkey, hid, fun p hp => ?_⟩
      rw [Heap.insertRuleFront_size]
      exact hlt p hp
  | none =>
    have ha : addStyleRule h m sel rule
        = (h.alloc.1.insertRuleFront h.size rule.cssText, m ++ [(sel, h.size)]) := by
      rw [addStyleRule, hl]
      rfl
    have hnotkey : ∀ p ∈ m, p.1 ≠ sel := (lookup_eq_none_iff m sel).mp hl
    have hlv : (styleMapView h m).lookup sel = none := by
      rw [styleMapView_lookup, hl]
      rfl
    have hfresh : (h.alloc.1.insertRuleFront h.size rule.cssText).read h.size
        = [rule.cssText] := by
      have hsz : h.size < h.alloc.1.size := by
        rw [Heap.alloc_size]
        exact Nat.lt_succ_self _
      rw [Heap.read_insertRuleFront_self h.alloc.1 h.size rule.cssText hsz,
        Heap.read_alloc_fresh]
    have hold : ∀ p ∈ m, (h.alloc.1.insertRuleFront h.size rule.cssText).read p.2
        = h.read p.2 := by
      intro p hp
      have hplt : p.2 < h.size := hlt p hp
      rw [Heap.read_insertRuleFront_ne _ _ _ _ (fun hc => absurd hc.symm (Nat.ne_of_lt hplt))]
      exact Heap.read_alloc_lt h p.2 hplt
    rw [ha]
    constructor
    · rw [insertText_of_none _ _ _ hlv]
      rw [styleMapView, styleMapView, List.map_append]
      congr 1
      · exact List.map_congr_left (fun p hp => by rw [hold p hp])
      · simp [hfresh]
    · refine ⟨?_, ?_, ?_⟩
      · rw [List.map_append, List.nodup_append]
        refine ⟨hkey, List.nodup_singleton _, ?_⟩
        intro a ha' hb
        simp only [List.map_cons, List.map_nil, List.mem_singleton] at hb
        subst hb
        rcases List.mem_map.mp ha' with ⟨p, hp, hps⟩
        exact hnotkey p hp hps
      · rw [List.map_append, List.nodup_append]
        refine ⟨hid, List.nodup_singleton _, ?_⟩
        intro a ha' hb
        simp only [List.map_cons, List.map_nil, List.mem_singleton] at hb
        subst hb
        rcases List.mem_map.mp ha' with ⟨p, hp, hps⟩
        exact absurd hps (Nat.ne_of_lt (hlt p hp))
      · intro p hp
        rw [Heap.insertRuleFront_size, Heap.alloc_size]
        rcases List.mem_append.mp hp with h1 | h1
        · exact Nat.lt_succ_of_lt (hlt p h1)
        · simp only [List.mem_singleton] at h1
          subst h1
          exact Nat.lt_succ_self _

theorem processStyleSheet_spec (sel : String) :
    ∀ (rules : List CSSRule) (h : Heap) (m : CrossRootStyles), WFS h m →
    styleMapView (processStyleSheet h rules sel m).1 (processStyleSheet h rules sel m).2
      = buildStylesFrom (styleMapView h m) (rules.map (fun r => (sel, r.cssText)))
    ∧ WFS (processStyleSheet h rules sel m).1 (processStyleSheet h rules sel m).2 := by
  intro rules
  induction rules with
  | nil =>
    intro h m hwf
    exact ⟨rfl, hwf⟩
  | cons r rs ih =>
    intro h m hwf
    have hstep := addStyleRule_spec h m sel r hwf
    have hrec := ih (addStyleRule h m sel r).1 (addStyleRule h m sel r).2 hstep.2
    have hps : processStyleSheet h (r :: rs) sel m
        = processStyleSheet (addStyleRule h m sel r).1 rs sel (addStyleRule h m sel r).2 := by
      rw [processStyleSheet, processStyleSheet, List.foldl_cons]
    rw [hps]
    refine ⟨?_, hrec.2⟩
    rw [hrec.1, hstep.1]
    rfl

theorem topLevelRuleStep_spec (acc : Heap × CrossRootStyles) (rule : CSSRule)
    (hwf : WFS acc.1 acc.2) :
    styleMapView (topLevelRuleStep acc rule).1 (topLevelRuleStep acc rule).2
      = buildStylesFrom (styleMapView acc.1 acc.2) (rulePairs rule)
    ∧ WFS (topLevelRuleStep acc rule).1 (topLevelRuleStep acc rule).2 := by
  cases hc : (rule.kindName == "CSSMediaRule"
      && (parseMediaQuery rule.conditionTextOrEmpty).isCrossRoot) with
  | true =>
    have h1 : topLevelRuleStep acc rule
        = processStyleSheet acc.1 rule.childRules
            (parseMediaQuery rule.conditionTextOrEmpty).selector acc.2 := by
      simp [topLevelRuleStep, hc]
    have h2 : rulePairs rule
        = rule.childRules.map
            (fun c => ((parseMediaQuery rule.conditionTextOrEmpty).selector, c.cssText)) := by
      simp [rulePairs, hc]
    rw [h1, h2]
    exact processStyleSheet_spec _ rule.childRules acc.1 acc.2 hwf
  | false =>
    have h1 : topLevelRuleStep acc rule = acc := by
      simp [topLevelRuleStep, hc]
    have h2 : rulePairs rule = [] := by
      simp [rulePairs, hc]
    rw [h1, h2]
    exact ⟨rfl, hwf⟩

theorem foldl_topLevel_spec :
    ∀ (rules : List CSSRule) (acc : Heap × CrossRootStyles), WFS acc.1 acc.2 →
    styleMapView (rules.foldl topLevelRuleStep acc).1 (rules.foldl topLevelRuleStep acc).2
      = buildStylesFrom (styleMapView acc.1 acc.2) (rules.flatMap rulePairs)
    ∧ WFS (rules.foldl topLevelRuleStep acc).1 (rules.foldl topLevelRuleStep acc).2 := by
  intro rules
  induction rules with
  | nil =>
    intro acc hwf
    exact ⟨rfl, hwf⟩
  | cons r rs ih =>
    intro acc hwf
    have hstep := topLevelRuleStep_spec acc r hwf
    have hrec := ih (topLevelRuleStep acc r) hstep.2
    simp only [List.foldl_cons, List.flatMap_cons]
    refine ⟨?_, hrec.2⟩
    rw [hrec.1, hstep.1, buildStylesFrom_append]

theorem sheetStep_spec (acc : Heap × CrossRootStyles) (sheet : StyleSheet)
    (hwf : WFS acc.1 acc.2) :
    styleMapView (sheetStep acc sheet).1 (sheetStep acc sheet).2
      = buildStylesFrom (styleMapView acc.1 acc.2) (sheetExtractedPairs sheet)
    ∧ WFS (sheetStep acc sheet).1 (sheetStep acc sheet).2 := by
  cases he : sheet.ownerNodeEligible with
  | false =>
    have h1 : sheetStep acc sheet = acc := by
      simp [sheetStep, he]
    have h2 : sheetExtractedPairs sheet = [] := by
      simp [sheetExtractedPairs, he]
    rw [h1, h2]
    exact ⟨rfl, hwf⟩
  | true =>
    cases hc : (parseMediaQuery sheet.mediaText).isCrossRoot with
    | true =>
      have h1 : sheetStep acc sheet
          = sheet.cssRules.foldl topLevelRuleStep
              (processStyleSheet acc.1 sheet.cssRules
                (parseMediaQuery sheet.mediaText).selector acc.2) := by
        simp [sheetStep, he, hc]
      have h2 : sheetExtractedPairs sheet
          = sheet.cssRules.map
              (fun r => ((parseMediaQuery sheet.mediaText).selector, r.cssText))
            ++ sheet.cssRules.flatMap rulePairs := by
        simp [sheetExtractedPairs, he, hc]
      have hstep := processStyleSheet_spec (parseMediaQuery sheet.mediaText).selector
        sheet.cssRules acc.1 acc.2 hwf
      have hrec := foldl_topLevel_spec sheet.cssRules
        (processStyleSheet acc.1 sheet.cssRules
          (parseMediaQuery sheet.mediaText).selector acc.2) hstep.2
      rw [h1, h2]
      refine ⟨?_, hrec.2⟩
      rw [hrec.1, hstep.1, buildStylesFrom_append]
    | false =>
      have h1 : sheetStep acc sheet = sheet.cssRules.foldl topLevelRuleStep acc := by
        simp [sheetStep, he, hc]
      have h2 : sheetExtractedPairs sheet = sheet.cssRules.flatMap rulePairs := by
        simp [sheetExtractedPairs, he, hc]
      have hrec := foldl_topLevel_spec sheet.cssRules acc hwf
      rw [h1, h2]
      exact hrec

theorem refresh_spec (styleSheets : List StyleSheet) :
    styleMapView (refreshCrossRootStyles styleSheets).1 (refreshCrossRootStyles styleSheets).2
      = buildStyles (extractedPairs styleSheets)
    ∧ WFS (refreshCrossRootStyles styleSheets).1 (refreshCrossRootStyles styleSheets).2 := by
  have hgen : ∀ (sheets : List StyleSheet) (acc : Heap × CrossRootStyles), WFS acc.1 acc.2 →
      styleMapView (sheets.foldl sheetStep acc).1 (sheets.foldl sheetStep acc).2
        = buildStylesFrom (styleMapView acc.1 acc.2) (extractedPairs sheets)
      ∧ WFS (sheets.foldl sheetStep acc).1 (sheets.foldl sheetStep acc).2 := by
    intro sheets
    induction sheets with
    | nil =>
      intro acc hwf
      exact ⟨rfl, hwf⟩
    | cons sh rest ih =>
      intro acc hwf
      have hstep := sheetStep_spec acc sh hwf
      have hrec := ih (sheetStep acc sh) hstep.2
      simp only [List.foldl_cons]
      refine ⟨?_, hrec.2⟩
      rw [hrec.1, hstep.1]
      simp only [extractedPairs, List.flatMap_cons]
      rw [buildStylesFrom_append]
  have hwf0 : WFS Heap.empty createCrossRootStyles :=
    ⟨List.nodup_nil, List.nodup_nil, fun p hp => absurd hp (List.not_mem_nil p)⟩
  exact hgen styleSheets (Heap.empty, createCrossRootStyles) hwf0

/-! ## Accumulator sheets are never empty, so compilation succeeds -/

theorem insertText_snd_ne (acc : List (String × List String)) (sel t : String)
    (hacc : ∀ q ∈ acc, q.2 ≠ []) : ∀ q ∈ insertText acc sel t, q.2 ≠ [] := by
  rw [insertText]
  cases hl : acc.lookup sel with
  | some v =>
    intro q hq
    rcases List.mem_map.mp hq with ⟨p, hp, hpq⟩
    by_cases hps : p.1 = sel
    · rw [if_pos hps] at hpq
      rw [← hpq]
      simp
    · rw [if_neg hps] at hpq
      rw [← hpq]
      exact hacc p hp
  | none =>
    intro q hq
    rcases List.mem_append.mp hq with h1 | h1
    · exact hacc q h1
    · simp only [List.mem_singleton] at h1
      subst h1
      simp

theorem buildStylesFrom_snd_ne :
    ∀ (ps : List (String × String)) (acc : List (String × List String)),
    (∀ q ∈ acc, q.2 ≠ []) → ∀ q ∈ buildStylesFrom acc ps, q.2 ≠ [] := by
  intro ps
  induction ps with
  | nil =>
    intro acc hacc
    exact hacc
  | cons p rest ih =>
    intro acc hacc
    rw [buildStylesFrom, List.foldl_cons]
    exact ih (insertText acc p.1 p.2) (insertText_snd_ne acc p.1 p.2 hacc)

theorem refresh_read_ne (styleSheets : List StyleSheet) :
    ∀ p ∈ (refreshCrossRootStyles styleSheets).2,
      (refreshCrossRootStyles styleSheets).1.read p.2 ≠ [] := by
  intro p hp
  have hv : (p.1, (refreshCrossRootStyles styleSheets).1.read p.2)
      ∈ styleMapView (refreshCrossRootStyles styleSheets).1
          (refreshCrossRootStyles styleSheets).2 := by
    rw [styleMapView]
    exact List.mem_map.mpr ⟨p, hp, rfl⟩
  rw [(refresh_spec styleSheets).1] at hv
  exact buildStylesFrom_snd_ne (extractedPairs styleSheets) []
    (fun q hq => absurd hq (List.not_mem_nil q)) _ hv

theorem convert_eq_of_ne (h : Heap) :
    ∀ (m : CrossRootStyles), (∀ p ∈ m, h.read p.2 ≠ []) →
    convertToCSSStyleSheets h m
      = some (m.map (fun p =>
          (p.1, ["@layer --crossroot \x7b" ++ (h.read p.2).headI ++ "\x7d"]))) := by
  intro m
  induction m with
  | nil =>
    intro hne
    rfl
  | cons p rest ih =>
    intro hne
    have hp : h.read p.2 ≠ [] := hne p (List.mem_cons_self p rest)
    cases hr : h.read p.2 with
    | nil => exact absurd hr hp
    | cons t ts =>
      have hh : (h.read p.2).head? = some t := by
        rw [hr]
        rfl
      have hhead : (h.read p.2).headI = t := by
        rw [hr]
        rfl
      rw [convertToCSSStyleSheets, hh,
        ih (fun q hq => hne q (List.mem_cons_of_mem p hq))]
      simp [hhead]

/-! ## Sync-pass characterization -/

theorem lookup_updAdopted (hosts : List (Nat × HostState)) (e k : Nat)
    (v : List (List String)) :
    (updAdopted hosts e v).lookup k
      = (hosts.lookup k).map (fun h => if k = e then { h with adopted := v } else h) := by
  rw [updAdopted, lookup_mapVals]

theorem updAdopted_fst (hosts : List (Nat × HostState)) (e : Nat) (v : List (List String)) :
    (updAdopted hosts e v).map Prod.fst = hosts.map Prod.fst :=
  mapVals_fst _ hosts

theorem mapVals_snd_id {α β : Type _} (l : List (α × β)) :
    mapVals (fun p => p.2) l = l := by
  simp [mapVals]

theorem updAdopted_updAdopted (hosts : List (Nat × HostState)) (e : Nat)
    (v w : List (List String)) :
    updAdopted (updAdopted hosts e v) e w = updAdopted hosts e w := by
  rw [updAdopted, updAdopted, updAdopted, mapVals_mapVals]
  refine mapVals_congr ?_
  intro p hp
  by_cases hpe : p.1 = e
  · simp [hpe]
  · simp [hpe]

theorem updAdopted_self (hosts : List (Nat × HostState)) (e : Nat) (hst : HostState)
    (hnd : (hosts.map Prod.fst).Nodup) (hl : hosts.lookup e = some hst) :
    updAdopted hosts e hst.adopted = hosts := by
  rw [updAdopted]
  have hmem : (e, hst) ∈ hosts := lookup_eq_some_mem hl
  have : mapVals (fun p => if p.1 = e then { p.2 with adopted := hst.adopted } else p.2) hosts
      = mapVals (fun p => p.2) hosts := by
    refine mapVals_congr ?_
    intro p hp
    by_cases hpe : p.1 = e
    · have hps : p.2 = hst := snd_eq_of_keysNodup hnd hmem hp hpe
      rw [if_pos hpe, hps]
    · rw [if_neg hpe]
  rw [this, mapVals_snd_id]

theorem matchingSheets_cons (hst : HostState) (p : String × List String)
    (rest : List (String × List String)) :
    matchingSheets hst (p :: rest)
      = if hst.matchedBy.contains p.1 then p.2 :: matchingSheets hst rest
        else matchingSheets hst rest := by
  rw [matchingSheets, List.filterMap_cons, matchingSheets]
  by_cases hc : hst.matchedBy.contains p.1
  · rw [if_pos hc, if_pos hc]
  · rw [if_neg hc, if_neg hc]

theorem applyCrossRootStyles_spec :
    ∀ (compiled : List (String × List String)) (s : PageState) (e : Nat) (hst : HostState),
    (s.hosts.map Prod.fst).Nodup → s.hosts.lookup e = some hst → hst.openRoot = true →
    applyCrossRootStyles s e compiled
      = some { s with hosts :=
          (updAdopted s.hosts e (hst.adopted ++ matchingSheets hst compiled)) } := by
  intro compiled
  induction compiled with
  | nil =>
    intro s e hst hnd hl hr
    have h1 : applyCrossRootStyles s e [] = some s := rfl
    rw [h1, matchingSheets, List.filterMap_nil, List.append_nil,
      updAdopted_self s.hosts e hst hnd hl]
  | cons p rest ih =>
    intro s e hst hnd hl hr
    by_cases hc : hst.matchedBy.contains p.1
    · have hms : matchingSheets hst (p :: rest) = p.2 :: matchingSheets hst rest := by
        rw [matchingSheets_cons, if_pos hc]
      have hstep : applyCrossRootStyles s e (p :: rest)
          = applyCrossRootStyles
              { s with hosts := (updAdopted s.hosts e (hst.adopted ++ [p.2])) } e rest := by
        rw [applyCrossRootStyles, applyCrossRootStyles, List.foldlM_cons]
        simp only [hl, hc, hr, if_true]
        rfl
      have hl1 : ({ s with hosts := (updAdopted s.hosts e (hst.adopted ++ [p.2])) }
            : PageState).hosts.lookup e
          = some { hst with adopted := hst.adopted ++ [p.2] } := by
        show (updAdopted s.hosts e (hst.adopted ++ [p.2])).lookup e = _
        rw [lookup_updAdopted, hl]
        simp
      have hnd1 : (({ s with hosts := (updAdopted s.hosts e (hst.adopted ++ [p.2])) }
            : PageState).hosts.map Prod.fst).Nodup := by
        show ((updAdopted s.hosts e (hst.adopted ++ [p.2])).map Prod.fst).Nodup
        rw [updAdopted_fst]
        exact hnd
      have harg : updAdopted (updAdopted s.hosts e (hst.adopted ++ [p.2])) e
            ((hst.adopted ++ [p.2]) ++ matchingSheets hst rest)
          = updAdopted s.hosts e (hst.adopted ++ (p.2 :: matchingSheets hst rest)) := by
        rw [updAdopted_updAdopted, List.append_assoc]
        rfl
      rw [hms, hstep, ih _ e { hst with adopted := hst.adopted ++ [p.2] } hnd1 hl1 hr]
      exact congrArg (fun H => some { s with hosts := H }) harg
    · have hms : matchingSheets hst (p :: rest) = matchingSheets hst rest := by
        rw [matchingSheets_cons, if_neg hc]
      have hstep : applyCrossRootStyles s e (p :: rest) = applyCrossRootStyles s e rest := by
        rw [applyCrossRootStyles, applyCrossRootStyles, List.foldlM_cons]
        simp only [hl, hc, Bool.false_eq_true, if_false]
        rfl
      rw [hms, hstep, ih s e hst hnd hl hr]

theorem clearShadowRootStyles_spec (s : PageState) (e : Nat) (hst : HostState)
    (init : List (List String)) (hl : s.hosts.lookup e = some hst)
    (hr : hst.openRoot = true) :
    clearShadowRootStyles s e init = some { s with hosts := (updAdopted s.hosts e init) } := by
  rw [clearShadowRootStyles]
  simp only [hl, hr, if_true]

theorem syncHostStep_spec (compiled : List (String × List String)) (s : PageState)
    (e : Nat) (hst : HostState) (hnd : (s.hosts.map Prod.fst).Nodup)
    (hl : s.hosts.lookup e = some hst) (hr : hst.openRoot = true) :
    syncHostStep compiled s e
      = some { s with hosts :=
          (updAdopted s.hosts e
            (((s.baselines.lookup e).getD []) ++ matchingSheets hst compiled)) } := by
  rw [syncHostStep, clearShadowRootStyles_spec s e hst _ hl hr]
  have hl1 : ({ s with hosts := (updAdopted s.hosts e ((s.baselines.lookup e).getD [])) }
        : PageState).hosts.lookup e
      = some { hst with adopted := (s.baselines.lookup e).getD [] } := by
    show (updAdopted s.hosts e ((s.baselines.lookup e).getD [])).lookup e = _
    rw [lookup_updAdopted, hl]
    simp
  have hnd1 : (({ s with hosts := (updAdopted s.hosts e ((s.baselines.lookup e).getD [])) }
        : PageState).hosts.map Prod.fst).Nodup := by
    show ((updAdopted s.hosts e ((s.baselines.lookup e).getD [])).map Prod.fst).Nodup
    rw [updAdopted_fst]
    exact hnd
  have happ := applyCrossRootStyles_spec compiled
    { s with hosts := (updAdopted s.hosts e ((s.baselines.lookup e).getD [])) } e
    { hst with adopted := (s.baselines.lookup e).getD [] } hnd1 hl1 hr
  show applyCrossRootStyles
      { s with hosts := (updAdopted s.hosts e ((s.baselines.lookup e).getD [])) } e compiled
    = some { s with hosts :=
        (updAdopted s.hosts e
          (((s.baselines.lookup e).getD []) ++ matchingSheets hst compiled)) }
  rw [happ]
  have harg : updAdopted (updAdopted s.hosts e ((s.baselines.lookup e).getD [])) e
        (((s.baselines.lookup e).getD []) ++ matchingSheets hst compiled)
      = updAdopted s.hosts e
        (((s.baselines.lookup e).getD []) ++ matchingSheets hst compiled) :=
    updAdopted_updAdopted _ _ _ _
  exact congrArg (fun H => some { s with hosts := H }) harg

theorem hostHasOpenRoot_some (s : PageState) (e : Nat)
    (h : hostHasOpenRoot s e = true) :
    ∃ hst, s.hosts.lookup e = some hst ∧ hst.openRoot = true := by
  rw [hostHasOpenRoot] at h
  cases hl : s.hosts.lookup e with
  | none =>
    rw [hl] at h
    cases h
  | some hst =>
    rw [hl] at h
    exact ⟨hst, rfl, h⟩

/-- The per-pass update each tracked element receives, as a pure function of
the baselines table `B`, the compiled map, and the element's own record. -/
def trackedUpdate (es : List Nat) (B : List (Nat × List (List String)))
    (compiled : List (String × List String)) (p : Nat × HostState) : HostState :=
  if p.1 ∈ es then
    { p.2 with adopted := (B.lookup p.1).getD [] ++ matchingSheets p.2 compiled }
  else p.2

theorem foldSync_spec (compiled : List (String × List String))
    (B : List (Nat × List (List String))) :
    ∀ (es : List Nat) (s : PageState), es.Nodup → (s.hosts.map Prod.fst).Nodup →
    (∀ e ∈ es, hostHasOpenRoot s e = true) → s.baselines = B →
    es.foldlM (syncHostStep compiled) s
      = some { s with hosts := (mapVals (trackedUpdate es B compiled) s.hosts) } := by
  intro es
  induction es with
  | nil =>
    intro s _ _ _ _
    have h1 : mapVals (trackedUpdate [] B compiled) s.hosts = s.hosts := by
      have h2 := mapVals_congr (l := s.hosts)
        (f := trackedUpdate [] B compiled) (g := fun p => p.2)
        (fun p _ => by simp [trackedUpdate])
      rw [h2, mapVals_snd_id]
    rw [h1]
    rfl
  | cons e rest ih =>
    intro s hnd hkey hall hB
    have hnd' := List.nodup_cons.mp hnd
    rcases hostHasOpenRoot_some s e (hall e (List.mem_cons_self e rest)) with ⟨hst, hl, hr⟩
    have hmem : (e, hst) ∈ s.hosts := lookup_eq_some_mem hl
    have hstep := syncHostStep_spec compiled s e hst hkey hl hr
    have hfold : (e :: rest).foldlM (syncHostStep compiled) s
        = rest.foldlM (syncHostStep compiled)
            { s with hosts :=
              (updAdopted s.hosts e
                (((s.baselines.lookup e).getD []) ++ matchingSheets hst compiled)) } := by
      rw [List.foldlM_cons, hstep]
      rfl
    have hkey2 : (({ s with hosts :=
          (updAdopted s.hosts e
            (((s.baselines.lookup e).getD []) ++ matchingSheets hst compiled)) }
        : PageState).hosts.map Prod.fst).Nodup := by
      show ((updAdopted s.hosts e _).map Prod.fst).Nodup
      rw [updAdopted_fst]
      exact hkey
    have hall2 : ∀ e' ∈ rest, hostHasOpenRoot
        { s with hosts :=
          (updAdopted s.hosts e
            (((s.baselines.lookup e).getD []) ++ matchingSheets hst compiled)) } e' = true := by
      intro e' he'
      have hprev := hall e' (List.mem_cons_of_mem e he')
      rw [hostHasOpenRoot] at hprev ⊢
      show (match (updAdopted s.hosts e
          (((s.baselines.lookup e).getD []) ++ matchingSheets hst compiled)).lookup e' with
        | some hst => hst.openRoot
        | none => false) = true
      rw [lookup_updAdopted]
      cases hle : s.hosts.lookup e' with
      | none =>
        rw [hle] at hprev
        cases hprev
      | some h' =>
        rw [hle] at hprev
        by_cases hee : e' = e
        · simp only [Option.map_some, if_pos hee]
          exact hprev
        · simp only [Option.map_some, if_neg hee]
          exact hprev
    have hB2 : ({ s with hosts :=
        (updAdopted s.hosts e
          (((s.baselines.lookup e).getD []) ++ matchingSheets hst compiled)) }
        : PageState).baselines = B := hB
    rw [hfold, ih _ hnd'.2 hkey2 hall2 hB2]
    have hosts_eq : mapVals (trackedUpdate rest B compiled)
        (updAdopted s.hosts e (((s.baselines.lookup e).getD []) ++ matchingSheets hst compiled))
        = mapVals (trackedUpdate (e :: rest) B compiled) s.hosts := by
      rw [updAdopted, mapVals_mapVals]
      refine mapVals_congr ?_
      intro p hp
      by_cases hpe : p.1 = e
      · have hps : p.2 = hst := snd_eq_of_keysNodup hkey hmem hp hpe
        have hpr : p.1 ∉ rest := by
          rw [hpe]
          exact hnd'.1
        have hmc : p.1 ∈ e :: rest := by
          rw [hpe]
          exact List.mem_cons_self e rest
        rw [trackedUpdate, trackedUpdate, if_pos hmc, if_pos hpe, if_neg hpr, hps, hpe, hB]
      · by_cases hprest : p.1 ∈ rest
        · have hmc : p.1 ∈ e :: rest := List.mem_cons_of_mem e hprest
          rw [trackedUpdate, trackedUpdate, if_pos hmc, if_neg hpe, if_pos hprest]
        · have hmc : p.1 ∉ e :: rest := by
            rw [List.mem_cons]
            rintro (hcase | hcase)
            · exact hpe hcase
            · exact hprest hcase
          rw [trackedUpdate, trackedUpdate, if_neg hmc, if_neg hpe, if_neg hprest]
    exact congrArg (fun H => some { s with hosts := H }) hosts_eq

/-! ## The whole sync pass -/

/-- The compiled stylesheet map produced from the given source stylesheets. -/
def compiledOf (styleSheets : List StyleSheet) : List (String × List String) :=
  (convertToCSSStyleSheets (refreshCrossRootStyles styleSheets).1
    (refreshCrossRootStyles styleSheets).2).getD []

theorem convert_refresh_eq (styleSheets : List StyleSheet) :
    convertToCSSStyleSheets (refreshCrossRootStyles styleSheets).1
      (refreshCrossRootStyles styleSheets).2 = some (compiledOf styleSheets) := by
  rw [compiledOf, convert_eq_of_ne _ _ (refresh_read_ne styleSheets)]
  rfl

/-- The state a sync pass produces: every tracked element's adopted list is
reset to its recorded baseline and the matching compiled sheets are appended;
nothing else changes. -/
def passResult (styleSheets : List StyleSheet) (s : PageState) : PageState :=
  { s with hosts :=
      (mapVals (trackedUpdate s.stylableElements s.baselines (compiledOf styleSheets))
        s.hosts) }

theorem initializeStyles_spec (styleSheets : List StyleSheet) (s : PageState)
    (hwf : WFPage s) :
    initializeStyles styleSheets s = some (passResult styleSheets s) := by
  rcases hwf with ⟨hnd, hkey, hall⟩
  rw [initializeStyles]
  show (match convertToCSSStyleSheets (refreshCrossRootStyles styleSheets).1
      (refreshCrossRootStyles styleSheets).2 with
    | none => none
    | some styleSheetMap => s.stylableElements.foldlM (syncHostStep styleSheetMap) s)
    = some (passResult styleSheets s)
  rw [convert_refresh_eq]
  exact foldSync_spec (compiledOf styleSheets) s.baselines s.stylableElements s
    hnd hkey hall rfl

theorem passResult_stylable (styleSheets : List StyleSheet) (s : PageState) :
    (passResult styleSheets s).stylableElements = s.stylableElements := rfl

theorem passResult_baselines (styleSheets : List StyleSheet) (s : PageState) :
    (passResult styleSheets s).baselines = s.baselines := rfl

theorem passResult_pending (styleSheets : List StyleSheet) (s : PageState) :
    (passResult styleSheets s).pending = s.pending := rfl

theorem trackedUpdate_openRoot (es : List Nat) (B : List (Nat × List (List String)))
    (compiled : List (String × List String)) (p : Nat × HostState) :
    (trackedUpdate es B compiled p).openRoot = p.2.openRoot := by
  rw [trackedUpdate]
  by_cases hc : p.1 ∈ es
  · rw [if_pos hc]
  · rw [if_neg hc]

theorem trackedUpdate_matchedBy (es : List Nat) (B : List (Nat × List (List String)))
    (compiled : List (String × List String)) (p : Nat × HostState) :
    (trackedUpdate es B compiled p).matchedBy = p.2.matchedBy := by
  rw [trackedUpdate]
  by_cases hc : p.1 ∈ es
  · rw [if_pos hc]
  · rw [if_neg hc]

theorem hostHasOpenRoot_mapVals (s : PageState) (f : Nat × HostState → HostState)
    (hpres : ∀ p, (f p).openRoot = p.2.openRoot) (e : Nat) :
    hostHasOpenRoot { s with hosts := (mapVals f s.hosts) } e = hostHasOpenRoot s e := by
  rw [hostHasOpenRoot, hostHasOpenRoot]
  show (match (mapVals f s.hosts).lookup e with
    | some hst => hst.openRoot
    | none => false) = _
  rw [lookup_mapVals]
  cases hl : s.hosts.lookup e with
  | none => rfl
  | some hst =>
    simp only [Option.map_some]
    exact hpres (e, hst)

theorem WFPage_passResult (styleSheets : List StyleSheet) (s : PageState)
    (hwf : WFPage s) : WFPage (passResult styleSheets s) := by
  rcases hwf with ⟨hnd, hkey, hall⟩
  refine ⟨hnd, ?_, ?_⟩
  · show ((mapVals (trackedUpdate s.stylableElements s.baselines (compiledOf styleSheets))
        s.hosts).map Prod.fst).Nodup
    rw [mapVals_fst]
    exact hkey
  · intro e he
    rw [passResult_stylable] at he
    show hostHasOpenRoot { s with hosts :=
        (mapVals (trackedUpdate s.stylableElements s.baselines (compiledOf styleSheets))
          s.hosts) } e = true
    rw [hostHasOpenRoot_mapVals s _ (trackedUpdate_openRoot _ _ _) e]
    exact hall e he

theorem passResult_fixpoint (styleSheets : List StyleSheet) (s : PageState) :
    passResult styleSheets (passResult styleSheets s) = passResult styleSheets s := by
  show ({ s with hosts :=
      (mapVals (trackedUpdate s.stylableElements s.baselines (compiledOf styleSheets))
        (mapVals (trackedUpdate s.stylableElements s.baselines (compiledOf styleSheets))
          s.hosts)) } : PageState)
    = { s with hosts :=
        (mapVals (trackedUpdate s.stylableElements s.baselines (compiledOf styleSheets))
          s.hosts) }
  rw [mapVals_mapVals]
  refine congrArg (fun H => { s with hosts := H }) ?_
  refine mapVals_congr ?_
  intro p hp
  simp only [trackedUpdate]
  by_cases hc : p.1 ∈ s.stylableElements
  · simp only [if_pos hc]
    have hms : matchingSheets
        { p.2 with adopted := (s.baselines.lookup p.1).getD []
            ++ matchingSheets p.2 (compiledOf styleSheets) } (compiledOf styleSheets)
        = matchingSheets p.2 (compiledOf styleSheets) := rfl
    rw [hms]
  · simp only [if_neg hc]

theorem syncN_spec (styleSheets : List StyleSheet) (s : PageState) (hwf : WFPage s) :
    ∀ n : Nat, syncN styleSheets (n + 1) s = some (passResult styleSheets s) := by
  have hpass := initializeStyles_spec styleSheets s hwf
  have hwf1 := WFPage_passResult styleSheets s hwf
  have hpass1 := initializeStyles_spec styleSheets (passResult styleSheets s) hwf1
  rw [passResult_fixpoint] at hpass1
  intro n
  induction n with
  | zero =>
    rw [syncN, hpass]
    rfl
  | succ n ihn =>
    have hstep1 : syncN styleSheets (n + 2) s
        = syncN styleSheets (n + 1) (passResult styleSheets s) := by
      rw [syncN, hpass]
      rfl
    have hstep2 : syncN styleSheets (n + 1) (passResult styleSheets s)
        = syncN styleSheets n (passResult styleSheets s) := by
      rw [syncN, hpass1]
      rfl
    cases n with
    | zero =>
      rw [hstep1, hstep2]
      rfl
    | succ m =>
      rw [hstep1, hstep2]
      have hm := ihn
      rw [show m + 1 + 1 = m + 2 from rfl] at hm
      have hstep3 : syncN styleSheets (m + 2) s
          = syncN styleSheets (m + 1) (passResult styleSheets s) := by
        rw [syncN, hpass]
        rfl
      rw [hstep3] at hm
      exact hm


/-! ## The tracking invariant (claim C10) -/

theorem lookup_append_some {α β : Type _} [BEq α] [LawfulBEq α]
    {l : List (α × β)} (l' : List (α × β)) {k : α} {v : β}
    (h : l.lookup k = some v) : (l ++ l').lookup k = some v := by
  induction l with
  | nil => cases h
  | cons p t ih =>
    rcases p with ⟨a, b⟩
    simp only [List.lookup, List.cons_append] at *
    cases hk : (k == a) with
    | true =>
      rw [hk] at h
      exact h
    | false =>
      rw [hk] at h
      exact ih h

/-- The invariant maintained by every operation of the model: tracked and
pending elements always have a non-null open shadow root, and the bookkeeping
lists are duplicate-free. -/
def Inv (s : PageState) : Prop :=
  (s.hosts.map Prod.fst).Nodup ∧ s.stylableElements.Nodup ∧
    (∀ e ∈ s.stylableElements, hostHasOpenRoot s e = true) ∧
    (∀ e ∈ s.pending, hostHasOpenRoot s e = true)

theorem Inv.toWFPage {s : PageState} (h : Inv s) : WFPage s :=
  ⟨h.2.1, h.1, h.2.2.1⟩

theorem hostHasOpenRoot_append (s : PageState) (l' : List (Nat × HostState)) (e : Nat)
    (h : hostHasOpenRoot s e = true) :
    hostHasOpenRoot { s with hosts := s.hosts ++ l' } e = true := by
  rcases hostHasOpenRoot_some s e h with ⟨hst, hl, hr⟩
  show (match (s.hosts ++ l').lookup e with
    | some hst => hst.openRoot
    | none => false) = true
  rw [lookup_append_some l' hl]
  exact hr

theorem hostHasOpenRoot_mapVals_mono (s : PageState) (f : Nat × HostState → HostState)
    (hpres : ∀ p, p.2.openRoot = true → (f p).openRoot = true) (e : Nat)
    (h : hostHasOpenRoot s e = true) :
    hostHasOpenRoot { s with hosts := (mapVals f s.hosts) } e = true := by
  rcases hostHasOpenRoot_some s e h with ⟨hst, hl, hr⟩
  show (match (mapVals f s.hosts).lookup e with
    | some hst => hst.openRoot
    | none => false) = true
  rw [lookup_mapVals, hl]
  exact hpres (e, hst) hr

theorem addStylable_nodup (l : List Nat) (e : Nat) (h : l.Nodup) :
    (addStylable l e).Nodup := by
  rw [addStylable]
  by_cases hc : e ∈ l
  · rw [if_pos hc]
    exact h
  · rw [if_neg hc]
    rw [List.nodup_append]
    exact ⟨h, List.nodup_singleton e, by
      intro a ha hb
      simp only [List.mem_singleton] at hb
      subst hb
      exact hc ha⟩

theorem mem_addStylable (l : List Nat) (e a : Nat) (h : a ∈ addStylable l e) :
    a ∈ l ∨ a = e := by
  rw [addStylable] at h
  by_cases hc : e ∈ l
  · rw [if_pos hc] at h
    exact Or.inl h
  · rw [if_neg hc] at h
    rcases List.mem_append.mp h with h1 | h1
    · exact Or.inl h1
    · simp only [List.mem_singleton] at h1
      exact Or.inr h1

theorem mainAttachShadowCallback_cases (e : Nat) (s s' : PageState)
    (hcb : mainAttachShadowCallback e s = some s') :
    ∃ hst, s.hosts.lookup e = some hst ∧
      (s' = { s with pending := s.pending.erase e } ∨
       s' = { s with
               pending := s.pending.erase e,
               stylableElements := addStylable s.stylableElements e,
               baselines := upsertBaseline s.baselines e hst.adopted }) := by
  rw [mainAttachShadowCallback, attachShadowCallback] at hcb
  cases hl : s.hosts.lookup e with
  | none =>
    rw [hl] at hcb
    cases hcb
  | some hst =>
    rw [hl] at hcb
    refine ⟨hst, rfl, ?_⟩
    have hcb2 : (if isInDarkRoot (DomNode.shadow hst.pos) = true
        then some ({ s with pending := s.pending.erase e } : PageState)
        else applyCrossRootStyles { s with
            pending := s.pending.erase e,
            stylableElements := addStylable s.stylableElements e,
            baselines := upsertBaseline s.baselines e hst.adopted } e mainInterceptorStyles)
        = some s' := hcb
    by_cases hd : isInDarkRoot (DomNode.shadow hst.pos) = true
    · rw [if_pos hd] at hcb2
      left
      exact (Option.some.inj hcb2).symm
    · rw [if_neg hd] at hcb2
      right
      have hcb' : some ({ s with
          pending := s.pending.erase e,
          stylableElements := addStylable s.stylableElements e,
          baselines := upsertBaseline s.baselines e hst.adopted } : PageState) = some s' := hcb2
      exact (Option.some.inj hcb').symm

theorem Inv_initial : Inv initialPageState := by
  refine ⟨List.nodup_nil, List.nodup_nil, ?_, ?_⟩
  · intro e he
    cases he
  · intro e he
    cases he

theorem Inv_step {s s' : PageState} (hs : Inv s) (hstep : Step s s') : Inv s' := by
  rcases hs with ⟨hkey, hnd, hstyl, hpend⟩
  cases hstep with
  | newElement e pos sels hfresh =>
    refine ⟨?_, hnd, ?_, ?_⟩
    · show ((s.hosts ++ [(e, (⟨pos, sels, false, []⟩ : HostState))]).map Prod.fst).Nodup
      rw [List.map_append, List.nodup_append]
      refine ⟨hkey, List.nodup_singleton _, ?_⟩
      intro a ha hb
      simp only [List.map_cons, List.map_nil, List.mem_singleton] at hb
      subst hb
      rcases List.mem_map.mp ha with ⟨p, hp, hps⟩
      exact ((lookup_eq_none_iff s.hosts a).mp hfresh p hp) hps
    · intro a ha
      exact hostHasOpenRoot_append s _ a (hstyl a ha)
    · intro a ha
      exact hostHasOpenRoot_append s _ a (hpend a ha)
  | attachOpen e hst hl hr =>
    refine ⟨?_, hnd, ?_, ?_⟩
    · show ((mapVals _ s.hosts).map Prod.fst).Nodup
      rw [mapVals_fst]
      exact hkey
    · intro a ha
      exact hostHasOpenRoot_mapVals_mono s _ (fun p hp => by
        by_cases hpe : p.1 = e
        · simp [hpe]
        · simp [hpe, hp]) a (hstyl a ha)
    · intro a ha
      rcases List.mem_append.mp ha with h1 | h1
      · exact hostHasOpenRoot_mapVals_mono s _ (fun p hp => by
          by_cases hpe : p.1 = e
          · simp [hpe]
          · simp [hpe, hp]) a (hpend a h1)
      · simp only [List.mem_singleton] at h1
        subst h1
        show (match (mapVals _ s.hosts).lookup a with
          | some hst => hst.openRoot
          | none => false) = true
        rw [lookup_mapVals, hl]
        simp
  | envAdopt e v hst hl hr =>
    refine ⟨?_, hnd, ?_, ?_⟩
    · show ((updAdopted s.hosts e v).map Prod.fst).Nodup
      rw [updAdopted_fst]
      exact hkey
    · intro a ha
      show hostHasOpenRoot { s with hosts :=
          (mapVals (fun p => if p.1 = e then { p.2 with adopted := v } else p.2)
            s.hosts) } a = true
      refine hostHasOpenRoot_mapVals_mono s _ (fun p hp => ?_) a (hstyl a ha)
      by_cases hpe : p.1 = e
      · simp [hpe, hp]
      · simp [hpe, hp]
    · intro a ha
      show hostHasOpenRoot { s with hosts :=
          (mapVals (fun p => if p.1 = e then { p.2 with adopted := v } else p.2)
            s.hosts) } a = true
      refine hostHasOpenRoot_mapVals_mono s _ (fun p hp => ?_) a (hpend a ha)
      by_cases hpe : p.1 = e
      · simp [hpe, hp]
      · simp [hpe, hp]
  | runCallback s' e hp hcb =>
    rcases mainAttachShadowCallback_cases e s s' hcb with ⟨hst, hl, hcase | hcase⟩
    · subst hcase
      exact ⟨hkey, hnd, hstyl, fun a ha => hpend a (List.mem_of_mem_erase ha)⟩
    · subst hcase
      refine ⟨hkey, addStylable_nodup _ _ hnd, ?_, ?_⟩
      · intro a ha
        rcases mem_addStylable _ _ _ ha with h1 | h1
        · exact hstyl a h1
        · subst h1
          exact hpend a hp
      · intro a ha
        exact hpend a (List.mem_of_mem_erase ha)
  | syncPass s' styleSheets hrun =>
    have hspec := initializeStyles_spec styleSheets s ⟨hnd, hkey, hstyl⟩
    rw [hrun] at hspec
    have hs' : s' = passResult styleSheets s := (Option.some.injEq _ _).mp hspec
    subst hs'
    have hwf' := WFPage_passResult styleSheets s ⟨hnd, hkey, hstyl⟩
    refine ⟨hwf'.2.1, hwf'.1, hwf'.2.2, ?_⟩
    intro a ha
    rw [passResult_pending] at ha
    show hostHasOpenRoot { s with hosts :=
        (mapVals (trackedUpdate s.stylableElements s.baselines (compiledOf styleSheets))
          s.hosts) } a = true
    rw [hostHasOpenRoot_mapVals s _ (trackedUpdate_openRoot _ _ _) a]
    exact hpend a ha
  | disableLive =>
    refine ⟨hkey, List.nodup_nil, ?_, hpend⟩
    intro a ha
    cases ha

theorem Inv_reachable {s : PageState} (h : Reachable s) : Inv s := by
  induction h with
  | init => exact Inv_initial
  | step hr hstep ih => exact Inv_step ih hstep


/-! ## Concrete scenario data -/

/-- The single rule of the end-to-end example: `* { color: red; }`. -/
def widgetRule : CSSRule := CSSRule.style "* \x7b color: red; \x7d"

/-- A page stylesheet containing `@media --crossroot(.widget) { * { color: red; } }`. -/
def widgetSheet : StyleSheet :=
  { mediaText := "screen", ownerNodeEligible := true,
    cssRules := [CSSRule.group "CSSMediaRule" "--crossroot(.widget)" [widgetRule]
      "@media --crossroot(.widget) \x7b * \x7b color: red; \x7d \x7d"] }

/-- The compiled stylesheet the pipeline produces for `.widget`. -/
def compiledWidgetSheet : List String :=
  ["@layer --crossroot \x7b* \x7b color: red; \x7d\x7d"]

/-- `document.documentElement`. -/
def docElementNode : DomNode := DomNode.element false false true none

/-- A shadow host sitting directly under the document element, matching
`.widget`, with no darkened marker anywhere in its ancestry. -/
def widgetHostNode : DomNode := DomNode.element false false false (some docElementNode)

/-- A pre-existing adopted stylesheet the component itself installed. -/
def preexistingSheet : List String := ["p \x7b margin: 0; \x7d"]

/-- State just before the deferred attach callback runs for host 1: the open
shadow root exists, the component already adopted `preexistingSheet`, the
callback is pending. -/
def c1Pending : PageState :=
  { hosts := [(1, ⟨widgetHostNode, [".widget"], true, [preexistingSheet]⟩)],
    stylableElements := [], baselines := [], pending := [1] }

/-- State after the attach callback: tracked, baseline recorded, but no
compiled stylesheet adopted. -/
def c1After : PageState :=
  { hosts := [(1, ⟨widgetHostNode, [".widget"], true, [preexistingSheet]⟩)],
    stylableElements := [1], baselines := [(1, [preexistingSheet])], pending := [] }

/-- A tracked host (id 1, matching `.widget`, open root, empty baseline). -/
def c2State : PageState :=
  { hosts := [(1, ⟨widgetHostNode, [".widget"], true, []⟩)],
    stylableElements := [1], baselines := [(1, [])], pending := [] }

/-- The same state after a sync pass over `[widgetSheet]`. -/
def c2Styled : PageState :=
  { hosts := [(1, ⟨widgetHostNode, [".widget"], true, [compiledWidgetSheet]⟩)],
    stylableElements := [1], baselines := [(1, [])], pending := [] }

/-- A stylesheet whose only top-level rule is a `CSSSupportsRule` carrying a
cross-root condition. -/
def supportsSheet : StyleSheet :=
  { mediaText := "screen", ownerNodeEligible := true,
    cssRules := [CSSRule.group "CSSSupportsRule" "--crossroot(.a)"
      [CSSRule.style ".x \x7b color: blue; \x7d"]
      "@supports \x7b .x \x7b color: blue; \x7d \x7d"] }

/-- A heap holding one accumulator sheet with one rule. -/
def aliasHeap : Heap := ⟨[["r0"]]⟩

/-- A style map binding selector `s` to that accumulator sheet. -/
def aliasMap : CrossRootStyles := [("s", 0)]

/-- A reachable state with one tracked host. -/
def demoState : PageState :=
  { hosts := [(1, ⟨widgetHostNode, [".widget"], true, []⟩)],
    stylableElements := [1], baselines := [(1, [])], pending := [] }

def demoState1 : PageState :=
  { hosts := [(1, ⟨widgetHostNode, [".widget"], false, []⟩)],
    stylableElements := [], baselines := [], pending := [] }

def demoState2 : PageState :=
  { hosts := [(1, ⟨widgetHostNode, [".widget"], true, []⟩)],
    stylableElements := [], baselines := [], pending := [1] }

theorem demoState_reachable : Reachable demoState := by
  have h0 : Reachable initialPageState := Reachable.init
  have hstep1 : Step initialPageState demoState1 :=
    Step.newElement initialPageState 1 widgetHostNode [".widget"] rfl
  have h1 := Reachable.step h0 hstep1
  have hstep2 : Step demoState1 demoState2 :=
    Step.attachOpen demoState1 1 ⟨widgetHostNode, [".widget"], false, []⟩ rfl rfl
  have h2 := Reachable.step h1 hstep2
  have hstep3 : Step demoState2 demoState :=
    Step.runCallback demoState2 demoState 1 (by decide) rfl
  exact Reachable.step h2 hstep3

/-! ## Claim theorems -/

/-- Claim C1 (code bug).  The spec says an open shadow root attached after the
interceptor is installed and found outside any darkened subtree receives the
compiled stylesheets current at that moment.  In the source, `main` hands
`wrapAttachShadow` the style map created by `createCrossRootStyles()` and
never reassigns or fills that object, so the deferred callback always applies
the empty map: in the end-to-end scenario the Dark-Root Detector reports
false, the compiled map current at that moment carries the `.widget`
stylesheet with the red rule, and yet after the callback the shadow root's
adopted list still holds only the pre-existing stylesheet and no compiled
stylesheet at all. -/
theorem attach_callback_applies_empty_map :
    mainInterceptorStyles = []
    ∧ isInDarkRoot (DomNode.shadow widgetHostNode) = false
    ∧ mainAttachShadowCallback 1 c1Pending = some c1After
    ∧ convertToCSSStyleSheets (refreshCrossRootStyles [widgetSheet]).1
        (refreshCrossRootStyles [widgetSheet]).2
      = some [(".widget", compiledWidgetSheet)]
    ∧ c1After.hosts.lookup 1
      = some ⟨widgetHostNode, [".widget"], true, [preexistingSheet]⟩
    ∧ compiledWidgetSheet ∉ [preexistingSheet] := by
  refine ⟨rfl, rfl, rfl, rfl, rfl, ?_⟩
  decide

/-- Claim C2 (code bug).  The spec says every sync pass extracts from the
stylesheets attached to the document at the moment the pass runs.  In the
source, `main` captures `[...document.styleSheets]` once, at script-evaluation
time, and every `initCallback` invocation reuses that snapshot: a
mutation-triggered pass on a page whose snapshot was empty applies nothing to
the tracked host, while running the same pass over the stylesheets actually
current at that moment (the later-added `widgetSheet`) adopts the compiled
`.widget` stylesheet. -/
theorem stale_stylesheet_snapshot :
    mainInitCallback [] c2State = some c2State
    ∧ initializeStyles [widgetSheet] c2State = some c2Styled :=
  ⟨rfl, rfl⟩

/-- Claim C3 (corrected).  The regex `(?:--crossroot\({0,1})([^\)]*)` matches
whenever the string merely CONTAINS `--crossroot` — a parenthesized argument
list is not required — so cross-root holds iff the marker occurs as a
substring.  When it does, the selector is the capture (the text after the
first marker occurrence and an optional `(`, up to the first `)` or the end),
verbatim if it has a non-whitespace character and `*` otherwise.  The four
examples of the claim hold as stated. -/
theorem parseMediaQuery_contains_marker :
    (∀ c : String, ((parseMediaQuery c).isCrossRoot = true ↔ ContainsMarker c))
    ∧ (∀ (c : String) (rest : List Char), matchTail c.toList = some rest →
        (parseMediaQuery c).selector
          = if (captureGroup rest).all isJsWhitespace then "*"
            else String.mk (captureGroup rest))
    ∧ parseMediaQuery "--crossroot" = ⟨true, "*"⟩
    ∧ parseMediaQuery "--crossroot(.card)" = ⟨true, ".card"⟩
    ∧ parseMediaQuery "--crossroot(  )" = ⟨true, "*"⟩
    ∧ parseMediaQuery "screen and (min-width: 10px)" = ⟨false, "*"⟩ := by
  refine ⟨parseMediaQuery_isCrossRoot_iff, ?_, by decide, by decide, by decide, by decide⟩
  intro c rest h
  rw [parseMediaQuery]
  simp only [h]

theorem parseMediaQuery_contains_marker_witness :
    (parseMediaQuery "--crossroot(.card)").selector
      = if (captureGroup "(.card)".toList).all isJsWhitespace then "*"
        else String.mk (captureGroup "(.card)".toList) :=
  parseMediaQuery_contains_marker.2.1 "--crossroot(.card)" "(.card)".toList rfl

/-- Claim C3's criterion fails on `"--crossrootx"`: the parser reports
cross-root although the string is not exactly the token and contains no
parenthesized argument list after the marker. -/
theorem parseMediaQuery_claim_false :
    (parseMediaQuery "--crossrootx").isCrossRoot = true
    ∧ ¬ CrossRootPerClaim "--crossrootx" := by
  refine ⟨rfl, ?_⟩
  rintro (h | ⟨pre, rest, h⟩)
  · exact absurd h (by decide)
  · have hmem : '(' ∈ "--crossrootx".toList := by
      rw [h]
      simp
    exact absurd hmem (by decide)

/-- Claim C4 (code bug).  The spec says that when the disable attribute is
present on the bootstrapping script at DOM-content-ready, the observer is
disconnected and the Stylable-Elements Set cleared.  The source reads
`document.currentScript` inside the `requestAnimationFrame` callback, where
it is null, so the registered handler calls `hasAttribute` on null and throws
(`none`); with a non-null script carrying the attribute the handler would
have disconnected and cleared as claimed. -/
theorem disable_attribute_never_honoured :
    mainDOMContentLoadedResult true [7] = none
    ∧ handleDOMContentLoaded (some ⟨true⟩) true [7] = some (false, []) :=
  ⟨rfl, rfl⟩

/-- Claim C5 (corrected).  The extractor never recurses: exactly the
stylesheet's own top-level rule block (when the sheet condition is
cross-root) and the direct-child grouping rules whose constructor name is
`"CSSMediaRule"` and whose own condition parses as cross-root are extracted —
the two checks are independent of one another — and conditional groups of any
other kind, and groups nested deeper than one level, are neither extracted
nor inspected.  `extractedPairs` states exactly that reading, and the
heap-threaded extractor is extensionally equal to folding those pairs into a
pure per-selector map. -/
theorem refresh_extracts_direct_media_only (styleSheets : List StyleSheet) :
    styleMapView (refreshCrossRootStyles styleSheets).1
        (refreshCrossRootStyles styleSheets).2
      = buildStyles (extractedPairs styleSheets) :=
  (refresh_spec styleSheets).1

/-- Claim C5's statement fails on a stylesheet whose only conditional group is
a `CSSSupportsRule` with a cross-root condition: the claim says its rules are
extracted under `.a`, but the extractor produces the empty map. -/
theorem nested_conditional_not_extracted :
    (parseMediaQuery "--crossroot(.a)").isCrossRoot = true
    ∧ (refreshCrossRootStyles [supportsSheet]).2 = []
    ∧ (refreshCrossRootStyles [supportsSheet]).2.lookup ".a" = none :=
  ⟨rfl, rfl, rfl⟩

/-- Claim C6 (corrected).  `addStyleRule` does return a fresh map object whose
bindings extend the input's, and when the selector is absent everything
reachable from the input map is untouched; but `R.clone` copies the
`CSSStyleSheet` values by reference, so when the selector is already present
the rule is inserted in place into the accumulator sheet shared with the
input map, and the rule contents reachable from the input change. -/
theorem addStyleRule_aliasing (h : Heap) (m : CrossRootStyles) (sel : String)
    (rule : CSSRule) (hwf : WFS h m) :
    (∀ p ∈ m, p ∈ (addStyleRule h m sel rule).2)
    ∧ (m.lookup sel = none →
        styleMapView (addStyleRule h m sel rule).1 m = styleMapView h m)
    ∧ (∀ i, m.lookup sel = some i →
        (addStyleRule h m sel rule).1.read i = rule.cssText :: h.read i
        ∧ ∀ p ∈ m, p.1 ≠ sel →
            (addStyleRule h m sel rule).1.read p.2 = h.read p.2) := by
  rcases hwf with ⟨hkey, hid, hlt⟩
  cases hl : m.lookup sel with
  | some i =>
    have ha : addStyleRule h m sel rule = (h.insertRuleFront i rule.cssText, m) := by
      rw [addStyleRule, hl]
    have hmem : (sel, i) ∈ m := lookup_eq_some_mem hl
    have hi : i < h.size := hlt _ hmem
    rw [ha]
    refine ⟨fun p hp => hp, ?_, ?_⟩
    · intro hnone
      cases hnone
    · intro i' hi'
      have hii : i = i' := Option.some.inj hi'
      subst hii
      refine ⟨Heap.read_insertRuleFront_self h i rule.cssText hi, ?_⟩
      intro p hp hps
      have hpi : p.2 ≠ i := by
        intro hcon
        have hpe : p = (sel, i) :=
          List.inj_on_of_nodup_map hid hp hmem (by simp [hcon])
        rw [hpe] at hps
        exact hps rfl
      exact Heap.read_insertRuleFront_ne h i p.2 rule.cssText (fun hc => hpi hc.symm)
  | none =>
    have ha : addStyleRule h m sel rule
        = (h.alloc.1.insertRuleFront h.size rule.cssText, m ++ [(sel, h.size)]) := by
      rw [addStyleRule, hl]
      rfl
    have hold : ∀ p ∈ m, (h.alloc.1.insertRuleFront h.size rule.cssText).read p.2
        = h.read p.2 := by
      intro p hp
      have hplt : p.2 < h.size := hlt p hp
      rw [Heap.read_insertRuleFront_ne _ _ _ _ (fun hc => absurd hc.symm (Nat.ne_of_lt hplt))]
      exact Heap.read_alloc_lt h p.2 hplt
    rw [ha]
    refine ⟨fun p hp => List.mem_append.mpr (Or.inl hp), ?_, ?_⟩
    · intro _
      rw [styleMapView, styleMapView]
      exact List.map_congr_left (fun p hp => by rw [hold p hp])
    · intro i hi'
      cases hi'

theorem addStyleRule_aliasing_witness :
    (addStyleRule aliasHeap aliasMap "s" (CSSRule.style "r1")).1.read 0
      = (CSSRule.style "r1").cssText :: aliasHeap.read 0 :=
  ((addStyleRule_aliasing aliasHeap aliasMap "s" (CSSRule.style "r1")
    ⟨by decide, by decide, by decide⟩).2.2 0 rfl).1

/-- Claim C6's statement fails on a map whose selector already has an
accumulator: after the update, the rule contents reachable from the prior map
have changed (the shared sheet now starts with the new rule). -/
theorem addStyleRule_mutates_shared_sheet :
    styleMapView (addStyleRule aliasHeap aliasMap "s" (CSSRule.style "r1")).1 aliasMap
      = [("s", ["r1", "r0"])]
    ∧ styleMapView aliasHeap aliasMap = [("s", ["r0"])]
    ∧ styleMapView (addStyleRule aliasHeap aliasMap "s" (CSSRule.style "r1")).1 aliasMap
      ≠ styleMapView aliasHeap aliasMap := by
  refine ⟨rfl, rfl, ?_⟩
  decide

/-- Claim C7 (confirmed).  `isInDarkRoot` is total (structural recursion on
the finite acyclic ancestry, so it terminates), recurses to the parent
element when one exists, reports true on a parentless shadow root exactly
when the host carries the darkened attribute or property and otherwise
recurses on the host, and on a parentless non-shadow node reports true
exactly when the node is not the document's root element. -/
theorem isInDarkRoot_characterization :
    (∀ (a p d : Bool) (parent : DomNode),
      isInDarkRoot (DomNode.element a p d (some parent)) = isInDarkRoot parent)
    ∧ (∀ host : DomNode, isInDarkRoot (DomNode.shadow host)
        = (host.hasDarkAttr || host.hasDarkProp || isInDarkRoot host))
    ∧ (∀ a p d : Bool, isInDarkRoot (DomNode.element a p d none) = !d) := by
  refine ⟨fun a p d parent => rfl, fun host => ?_, fun a p d => rfl⟩
  rw [isInDarkRoot]
  cases hA : host.hasDarkAttr with
  | true => simp
  | false =>
    cases hP : host.hasDarkProp with
    | true => simp
    | false => simp

/-- Claim C8 (confirmed).  With unchanged source stylesheets, any `N ≥ 1`
consecutive sync passes leave each tracked host's adopted list equal to its
recorded baseline followed by exactly one compiled stylesheet per selector
the host matches (the same result as a single pass), so the length is
baseline length plus the number of matching selectors and does not grow
with `N`. -/
theorem sync_pass_idempotent (styleSheets : List StyleSheet) (s : PageState)
    (N : Nat) (hN : 1 ≤ N) (hwf : WFPage s) :
    ∃ s', syncN styleSheets N s = some s'
      ∧ syncN styleSheets 1 s = some s'
      ∧ ∀ e ∈ s.stylableElements, ∃ hst hst',
          s.hosts.lookup e = some hst
          ∧ s'.hosts.lookup e = some hst'
          ∧ hst'.adopted = (s.baselines.lookup e).getD []
              ++ matchingSheets hst (compiledOf styleSheets)
          ∧ hst'.adopted.length = ((s.baselines.lookup e).getD []).length
              + (matchingSheets hst (compiledOf styleSheets)).length := by
  cases N with
  | zero => cases hN
  | succ n =>
    refine ⟨passResult styleSheets s, syncN_spec styleSheets s hwf n,
      syncN_spec styleSheets s hwf 0, ?_⟩
    intro e he
    rcases hostHasOpenRoot_some s e (hwf.2.2 e he) with ⟨hst, hl, hr⟩
    refine ⟨hst, trackedUpdate s.stylableElements s.baselines (compiledOf styleSheets) (e, hst),
      hl, ?_, ?_, ?_⟩
    · show (mapVals (trackedUpdate s.stylableElements s.baselines (compiledOf styleSheets))
        s.hosts).lookup e = _
      rw [lookup_mapVals, hl]
      rfl
    · simp [trackedUpdate, he]
    · simp [trackedUpdate, he, List.length_append]

theorem sync_pass_idempotent_witness :
    syncN [widgetSheet] 3 c2State = some c2Styled := by
  rcases sync_pass_idempotent [widgetSheet] c2State 3 (by decide)
    ⟨by decide, by decide, by decide⟩ with ⟨s', h1, h2, h3⟩
  have hone : syncN [widgetSheet] 1 c2State = some c2Styled := rfl
  rw [h2] at hone
  rw [h1]
  exact hone

/-- Claim C9 (confirmed).  For every selector key, `convertToCSSStyleSheets`
produces exactly one compiled stylesheet whose single rule is the
`@layer --crossroot` block wrapping the text of the accumulator's rule at
index 0; other accumulated rule blocks are dropped.  Because `addStyleRule`
inserts at the front, the rule at index 0 of the updated selector's
accumulator is the most recently extracted rule. -/
theorem convertToCSSStyleSheets_first_rule (h : Heap) (m : CrossRootStyles)
    (hwf : WFS h m) (hne : ∀ p ∈ m, h.read p.2 ≠ []) :
    convertToCSSStyleSheets h m
      = some (m.map (fun p =>
          (p.1, ["@layer --crossroot \x7b" ++ (h.read p.2).headI ++ "\x7d"])))
    ∧ ∀ (sel : String) (rule : CSSRule) (i : Nat),
        (addStyleRule h m sel rule).2.lookup sel = some i →
        ((addStyleRule h m sel rule).1.read i).head? = some rule.cssText := by
  rcases hwf with ⟨hkey, hid, hlt⟩
  refine ⟨convert_eq_of_ne h m hne, ?_⟩
  intro sel rule i hi'
  cases hl : m.lookup sel with
  | some i0 =>
    have ha : addStyleRule h m sel rule = (h.insertRuleFront i0 rule.cssText, m) := by
      rw [addStyleRule, hl]
    rw [ha] at hi'
    rw [hl] at hi'
    have hii : i0 = i := Option.some.inj hi'
    subst hii
    have hi0 : i0 < h.size := hlt _ (lookup_eq_some_mem hl)
    rw [ha]
    show ((h.insertRuleFront i0 rule.cssText).read i0).head? = some rule.cssText
    rw [Heap.read_insertRuleFront_self h i0 rule.cssText hi0]
    rfl
  | none =>
    have ha : addStyleRule h m sel rule
        = (h.alloc.1.insertRuleFront h.size rule.cssText, m ++ [(sel, h.size)]) := by
      rw [addStyleRule, hl]
      rfl
    rw [ha] at hi'
    have hlook : (m ++ [(sel, h.size)]).lookup sel = some h.size := by
      rw [lookup_append_of_none _ hl]
      simp [List.lookup]
    rw [hlook] at hi'
    have hii : i = h.size := (Option.some.inj hi').symm
    subst hii
    rw [ha]
    show ((h.alloc.1.insertRuleFront h.size rule.cssText).read h.size).head?
      = some rule.cssText
    have hsz : h.size < h.alloc.1.size := by
      rw [Heap.alloc_size]
      exact Nat.lt_succ_self _
    rw [Heap.read_insertRuleFront_self h.alloc.1 h.size rule.cssText hsz,
      Heap.read_alloc_fresh]
    rfl

theorem convertToCSSStyleSheets_first_rule_witness :
    ((addStyleRule aliasHeap aliasMap "t" (CSSRule.style "rX")).1.read 1).head?
      = some (CSSRule.style "rX").cssText :=
  (convertToCSSStyleSheets_first_rule aliasHeap aliasMap
    ⟨by decide, by decide, by decide⟩ (by decide)).2 "t" (CSSRule.style "rX") 1 rfl

/-- Claim C10 (confirmed).  In every reachable state of the model, an element
is in the Stylable-Elements Set only if it was registered by the deferred
callback of an intercepted open-mode `attachShadow`, so it has a non-null
open shadow root, and consequently every sync pass's `element.shadowRoot!`
dereferences succeed: `initializeStyles` never hits its failure branch. -/
theorem stylable_elements_have_open_roots (s : PageState) (h : Reachable s) :
    (∀ e ∈ s.stylableElements, ∃ hst, s.hosts.lookup e = some hst ∧ hst.openRoot = true)
    ∧ ∀ styleSheets : List StyleSheet,
        (initializeStyles styleSheets s).isSome = true := by
  have hInv := Inv_reachable h
  constructor
  · intro e he
    exact hostHasOpenRoot_some s e (hInv.2.2.1 e he)
  · intro styleSheets
    rw [initializeStyles_spec styleSheets s hInv.toWFPage]
    rfl

theorem stylable_elements_have_open_roots_witness :
    (initializeStyles [widgetSheet] demoState).isSome = true :=
  (stylable_elements_have_open_roots demoState demoState_reachable).2 [widgetSheet]


end HalfLight


